import Mathlib

/-! CppUtilities: the zip iterator (`js::IteratorTuple`, `js::ZipBase`), the
index sort, the tuple functions, the type traits, the numbered-file writer and
the parallel accumulation

Shallow embedding of `include/js/iterator/iterator_tuple.hpp`,
`include/js/iterator/zip.hpp`, `include/js/iterator/iter_traits.hpp`,
`include/js/algorithm/sort.hpp`, `include/js/tuple/tuple_functions.hpp`,
`include/js/type_traits/std_extension.hpp`,
`include/js/type_traits/container_traits.hpp`,
`include/js/stream/basic_file_handler.hpp` and
`include/js/algorithm/parallel_algorithm.hpp`.

* A component iterator is the offset of the element it points at, counted from
  `begin()` of its own container.
* A `std::tuple<T...>` of arity `N` is a dependent function `(i : Fin N) → T i`;
  an `std::index_sequence` expansion is a traversal of `List.finRange N`.
* The containers live in the caller's memory.  Code that reads or writes them
  receives their current value and returns the updated one.
* A read or write that C++ leaves undefined (dereferencing at or past `end()`)
  gives `none`; so does, where a cursor is stepped with the precondition of
  `++`, the increment of a component at `end()`.
* The choice among the overloads of `select_return_iter` is made when the
  program is compiled; it is embedded as a function of what the declarations
  ask about the type of the container.  In the same way `cbegin()`, `cend()`,
  `empty()` and `tuple_from_array` carry the condition under which they can be
  instantiated, and give `none` where the program is ill-formed.
* `std::sort` is library code whose algorithm the C++ standard leaves open: it
  is embedded as the set of results the standard allows.
* The file system is the predicate telling which paths exist; the threads of
  `parallel_accumulate` work on separate blocks and separate results and are
  joined before the results are read, so they are embedded one after the
  other.  The conversion of the literal `0` to the value type, with which the
  vector of partial results is filled, is an argument of the embedding.
-/

namespace js

/-! ## Component iterators, references and containers -/

/-- Iterator into one container: the offset of the element it points at. -/
structure Iterator where
  pos : Nat
deriving DecidableEq, Repr

/-- Increment of a component iterator (`++i`). -/
def Iterator.inc (i : Iterator) : Iterator := ⟨i.pos + 1⟩

/-- Reference to a live element of a container: the offset of that element. -/
structure Reference where
  pos : Nat
deriving DecidableEq, Repr

/-- A standard container: its elements in iteration order, and the value its
`max_size()` reports. -/
structure Container (α : Type) where
  elems : List α
  max_size : Nat
deriving DecidableEq, Repr

/-- Value of `c.size()`. -/
def Container.size {α : Type} (c : Container α) : Nat := c.elems.length

/-- Value of `c.begin()`. -/
def Container.begin {α : Type} (_c : Container α) : Iterator := ⟨0⟩

/-- Value of `c.end()`. -/
def Container.end_ {α : Type} (c : Container α) : Iterator := ⟨c.elems.length⟩

/-- Value of `c.cbegin()`. -/
def Container.cbegin {α : Type} (_c : Container α) : Iterator := ⟨0⟩

/-- Value of `c.cend()`. -/
def Container.cend {α : Type} (c : Container α) : Iterator := ⟨c.elems.length⟩

/-- Dereference `*it` of an iterator into `c`: a reference to the element at the
iterator's offset; undefined at or past `c.end()`. -/
def Container.deref {α : Type} (c : Container α) (it : Iterator) : Option Reference :=
  if it.pos < c.size then some ⟨it.pos⟩ else none

/-- The `N` caller-owned containers, element type `α i` for container `i`. -/
abbrev Containers {N : Nat} (α : Fin N → Type) := (i : Fin N) → Container (α i)

/-- Read through a reference into container `i`. -/
def Reference.read {N : Nat} {α : Fin N → Type} (cs : Containers α) (i : Fin N)
    (r : Reference) : Option (α i) :=
  (cs i).elems[r.pos]?

/-- Assignment `r = v` through a reference into container `i`: the element of
container `i` at the reference's offset is overwritten, nothing else changes. -/
def Reference.assign {N : Nat} {α : Fin N → Type} (cs : Containers α) (i : Fin N)
    (r : Reference) (v : α i) : Option (Containers α) :=
  if r.pos < (cs i).size then
    some (Function.update cs i { cs i with elems := (cs i).elems.set r.pos v })
  else none

/-! ## `std::tuple` comparison -/

/-- Comparison `a == b` of two `std::tuple`s: the components are compared in
index order and the result is true when no pair differs. -/
def tuple_eq {N : Nat} {τ : Fin N → Type} [∀ i, DecidableEq (τ i)]
    (a b : (i : Fin N) → τ i) : Bool :=
  (List.finRange N).all (fun i => decide (a i = b i))

/-- Comparison `a != b` of two `std::tuple`s, the negation of `a == b`. -/
def tuple_ne {N : Nat} {τ : Fin N → Type} [∀ i, DecidableEq (τ i)]
    (a b : (i : Fin N) → τ i) : Bool :=
  !(tuple_eq a b)

/-- Comparison `a == b` of two `std::tuple`s whose component `i` has the
equality operator `eqv i`: the components are compared in index order and the
result is true when no pair differs. -/
def tuple_eq_with {N : Nat} {τ : Fin N → Type} (eqv : (i : Fin N) → τ i → τ i → Bool)
    (a b : (i : Fin N) → τ i) : Bool :=
  (List.finRange N).all (fun i => eqv i (a i) (b i))

/-- Equality operator `c1 == c2` of a standard container: the two containers
have the same size and equal elements at every position. -/
def Container.eq {α : Type} [DecidableEq α] (c1 c2 : Container α) : Bool :=
  decide (c1.elems = c2.elems)

/-! ## `iterator_tuple.hpp` -/

/-- Embedding of `detail::iter_impl`: `f` is applied to component `I` of `iter`,
in place, for `I = 0, 1, ..., N-1` in this order. -/
def iter_impl {N : Nat} (f : Iterator → Iterator) (iter : Fin N → Iterator) :
    Fin N → Iterator :=
  (List.finRange N).foldl (fun it i => Function.update it i (f (it i))) iter

/-- Embedding of `detail::make_deref_impl`: `std::tie(*std::get<I>(iter)...)`, the
tuple whose element `I` is the reference obtained by dereferencing component
`I`.  Defined only when every component can be dereferenced. -/
def make_deref_impl {N : Nat} {α : Fin N → Type} (cs : Containers α)
    (iter : Fin N → Iterator) : Option (Fin N → Reference) :=
  if h : ∀ i, ((cs i).deref (iter i)).isSome then
    some (fun i => ((cs i).deref (iter i)).get (h i))
  else none

/-- Embedding of the class `IteratorTuple<Iter...>`: its only member is the tuple
`_iter_pos` of component iterators. -/
@[ext]
structure IteratorTuple (N : Nat) where
  _iter_pos : Fin N → Iterator

/-- Embedding of `makeIteratorTuple(iter...)`: the cursor holding the given
iterators. -/
def makeIteratorTuple {N : Nat} (iter : Fin N → Iterator) : IteratorTuple N :=
  ⟨iter⟩

/-- Embedding of `IteratorTuple::operator++()` (prefix).  The first component of
the result is the object after the call, the second the value the call
returns (a reference to the object itself). -/
def IteratorTuple.preInc {N : Nat} (self : IteratorTuple N) :
    IteratorTuple N × IteratorTuple N :=
  let self1 : IteratorTuple N := ⟨iter_impl Iterator.inc self._iter_pos⟩
  (self1, self1)

/-- Decrement of a component iterator (`--i`).  Decrementing `begin()` is
undefined in C++; the model leaves offset `0` where it is. -/
def Iterator.dec (i : Iterator) : Iterator := ⟨i.pos - 1⟩

/-- Embedding of `IteratorTuple::operator--()` (prefix).  The first component of
the result is the object after the call, the second the value the call
returns (a reference to the object itself). -/
def IteratorTuple.preDec {N : Nat} (self : IteratorTuple N) :
    IteratorTuple N × IteratorTuple N :=
  let self1 : IteratorTuple N := ⟨iter_impl Iterator.dec self._iter_pos⟩
  (self1, self1)

/-- Embedding of `IteratorTuple::operator*()`. -/
def IteratorTuple.deref {N : Nat} {α : Fin N → Type} (cs : Containers α)
    (self : IteratorTuple N) : Option (Fin N → Reference) :=
  make_deref_impl cs self._iter_pos

/-- Embedding of `operator==(IteratorTuple, IteratorTuple)`. -/
def IteratorTuple.eq {N : Nat} (iter1 iter2 : IteratorTuple N) : Bool :=
  tuple_eq iter1._iter_pos iter2._iter_pos

/-- Embedding of `operator!=(IteratorTuple, IteratorTuple)`. -/
def IteratorTuple.ne {N : Nat} (iter1 iter2 : IteratorTuple N) : Bool :=
  tuple_ne iter1._iter_pos iter2._iter_pos

/-- Component `i` of a cursor (`std::get<i>(_iter_pos)`). -/
def IteratorTuple.get {N : Nat} (self : IteratorTuple N) (i : Fin N) : Iterator :=
  self._iter_pos i

/-- Embedding of the statement `std::get<i>(*iter) = v`: the cursor is
dereferenced and `v` is assigned through element `i` of the resulting tuple of
references. -/
def IteratorTuple.assign_through {N : Nat} {α : Fin N → Type} (cs : Containers α)
    (self : IteratorTuple N) (i : Fin N) (v : α i) : Option (Containers α) :=
  match self.deref cs with
  | none => none
  | some t => (t i).assign cs i v

/-- Embedding of the expression `std::get<i>(*iter)` read as a value. -/
def IteratorTuple.read_through {N : Nat} {α : Fin N → Type} (cs : Containers α)
    (self : IteratorTuple N) (i : Fin N) : Option (α i) :=
  match self.deref cs with
  | none => none
  | some t => (t i).read cs i

/-- The cursor after `k` prefix increments. -/
def IteratorTuple.advance {N : Nat} (k : Nat) (self : IteratorTuple N) : IteratorTuple N :=
  Nat.iterate (fun c => (IteratorTuple.preInc c).1) k self

/-! ## `zip.hpp` -/

/-- Embedding of `calc_max_length(head, tail...)`, on the values `max_size()` of
the containers: the one-argument overload returns `head.max_size()`, the
recursive one the smaller of `head.max_size()` and the result for the tail. -/
def calc_max_length : Nat → List Nat → Nat
  | head, [] => head
  | head, t :: ts =>
    let len := calc_max_length t ts
    let head_size := head
    if head_size < len then head_size else len

/-- Embedding of `container_size(size, head, tail...)`, on the values `size()` of
the containers.  The result is the value returned and the value left in the
output parameter `size`.  The one-argument overload stores `head.size()` and
returns `true`; the recursive one first runs on the tail, then compares
`head.size()` with the size found there. -/
def container_size (size : Nat) : Nat → List Nat → Bool × Nat
  | head, [] => (true, head)
  | head, t :: ts =>
    let r := container_size size t ts
    let tmp := r.1
    let size1 := r.2
    let head_size := head
    if head_size ≠ size1 then
      (false, if head_size < size1 then head_size else size1)
    else (tmp, size1)

/-- Embedding of `create_iterator_from_tuple(t, f)`: the cursor whose component
`I` is `f(std::get<I>(t))`; `f` is a generic lambda. -/
def create_iterator_from_tuple {N : Nat} {α : Fin N → Type} (t : Containers α)
    (f : {β : Type} → Container β → Iterator) : IteratorTuple N :=
  ⟨fun i => f (t i)⟩

/-- Embedding of the class `ZipBase<Arg...>` over `n + 1` containers (the pack
`Arg...` is never empty, `calc_max_length` has no overload without
arguments).  `_container` is the tuple of references to the wrapped
containers, held here as the current value of the containers referred to. -/
structure ZipBase (n : Nat) (α : Fin (n + 1) → Type) where
  _container : Containers α
  _max_length : Nat
  _length : Nat

/-- Embedding of the constructor `ZipBase(Arg&... arg)`.  Its initialiser list is
`_container(arg...), _max_length(calc_max_length(arg...))`; the member
`_length` is not initialised, so it keeps whatever value `indeterminate` the
object's storage held. -/
def ZipBase.ctor {n : Nat} {α : Fin (n + 1) → Type} (arg : Containers α)
    (indeterminate : Nat) : ZipBase n α where
  _container := arg
  _max_length :=
    calc_max_length (arg 0).max_size (List.ofFn (fun i : Fin n => (arg i.succ).max_size))
  _length := indeterminate

/-- Embedding of `ZipBase::begin()`. -/
def ZipBase.begin {n : Nat} {α : Fin (n + 1) → Type} (z : ZipBase n α) :
    IteratorTuple (n + 1) :=
  create_iterator_from_tuple z._container (fun x => x.begin)

/-- Embedding of `ZipBase::end()`. -/
def ZipBase.end_ {n : Nat} {α : Fin (n + 1) → Type} (z : ZipBase n α) :
    IteratorTuple (n + 1) :=
  create_iterator_from_tuple z._container (fun x => x.end_)

/-- What `cbegin()` and `cend()` ask about the type `Arg` of a wrapped container:
whether `typename Arg::const_iterator` is the very type `typename Arg::iterator`.
They are two types, with a conversion from `iterator` to `const_iterator` only,
for `std::vector`, `std::array`, `std::deque`, `std::list`, `std::forward_list`
and `std::map`; they are one type for `std::set`, whose elements can be
modified through neither. -/
structure ContainerType where
  const_iterator_is_iterator : Bool
deriving DecidableEq, Repr

/-- The type `std::vector<T>`. -/
def ContainerType.vector : ContainerType := ⟨false⟩

/-- The type `std::array<T, N>`. -/
def ContainerType.array : ContainerType := ⟨false⟩

/-- The type `std::set<T>`. -/
def ContainerType.set : ContainerType := ⟨true⟩

/-- Embedding of `create_iterator_from_tuple(t, f)` as `cbegin()` and `cend()` call
it, with an `f` that returns `const_iterator`s.  Its body is
`return IteratorTuple<typename std::decay_t<Arg>::iterator...>(f(std::get<I>(t))...);`
whatever `f` returns: the constructor `IteratorTuple(const Iter&...)` takes
`iterator`s, and the object built is returned by `cbegin()` and `cend()` as
`const_iterator = IteratorTuple<typename Arg::const_iterator...>`, a class that
can be constructed from an `IteratorTuple` of its own type only.  So the
member function can be instantiated only when `const_iterator` is the type
`iterator` for every wrapped type; for any other view the program is
ill-formed (`none`). -/
def create_const_iterator_from_tuple {N : Nat} {α : Fin N → Type}
    (Arg : Fin N → ContainerType) (t : Containers α)
    (f : {β : Type} → Container β → Iterator) : Option (IteratorTuple N) :=
  if ∀ i, (Arg i).const_iterator_is_iterator = true then
    some (create_iterator_from_tuple t f)
  else none

/-- Embedding of `ZipBase::cbegin()` of the class `ZipBase<Arg...>`. -/
def ZipBase.cbegin {n : Nat} {α : Fin (n + 1) → Type} (Arg : Fin (n + 1) → ContainerType)
    (z : ZipBase n α) : Option (IteratorTuple (n + 1)) :=
  create_const_iterator_from_tuple Arg z._container (fun x => x.cbegin)

/-- Embedding of `ZipBase::cend()` of the class `ZipBase<Arg...>`. -/
def ZipBase.cend {n : Nat} {α : Fin (n + 1) → Type} (Arg : Fin (n + 1) → ContainerType)
    (z : ZipBase n α) : Option (IteratorTuple (n + 1)) :=
  create_const_iterator_from_tuple Arg z._container (fun x => x.cend)

/-- Embedding of `ZipBase::size()`. -/
def ZipBase.size {n : Nat} {α : Fin (n + 1) → Type} (z : ZipBase n α) : Nat :=
  z._length

/-- Embedding of `ZipBase::max_size()`. -/
def ZipBase.max_size {n : Nat} {α : Fin (n + 1) → Type} (z : ZipBase n α) : Nat :=
  z._max_length

/-- Embedding of `ZipBase::empty()` of the class `ZipBase<Arg...>`, whose body is
`return cbegin() == cend();`: it can be instantiated only where `cbegin()` and
`cend()` can. -/
def ZipBase.empty {n : Nat} {α : Fin (n + 1) → Type} (Arg : Fin (n + 1) → ContainerType)
    (z : ZipBase n α) : Option Bool :=
  match z.cbegin Arg, z.cend Arg with
  | some first, some last => some (IteratorTuple.eq first last)
  | _, _ => none

/-- Embedding of `operator==(ZipBase, ZipBase)`: the two tuples of references
are compared, each pair of referenced containers with the containers' own
`==`. -/
def ZipBase.eq {n : Nat} {α : Fin (n + 1) → Type} [∀ i, DecidableEq (α i)]
    (z1 z2 : ZipBase n α) : Bool :=
  tuple_eq_with (fun _ c1 c2 => Container.eq c1 c2) z1._container z2._container

/-- Embedding of `operator!=(ZipBase, ZipBase)`. -/
def ZipBase.ne {n : Nat} {α : Fin (n + 1) → Type} [∀ i, DecidableEq (α i)]
    (z1 z2 : ZipBase n α) : Bool :=
  !(tuple_eq_with (fun _ c1 c2 => Container.eq c1 c2) z1._container z2._container)

/-! ## `iter_traits.hpp` -/

/-- Type of the expression `c.emplace(arg...)`: not a valid expression, the type
`std::pair<typename C::iterator, bool>`, or the type `typename C::iterator`. -/
inductive EmplaceType where
  | invalid
  | pair_iterator_bool
  | iterator
deriving DecidableEq, Repr

/-- What the declarations of `select_return_iter` ask about the type `C` of the
object `c` and the arguments of a call: whether `typename C::iterator` names a
type, whether `c.emplace_back(arg...)` is a valid expression, and the type of
`c.emplace(arg...)`. -/
structure CppType where
  has_iterator : Bool
  emplace_back_valid : Bool
  emplace_type : EmplaceType
deriving DecidableEq, Repr

/-- A `std::vector`, `std::deque` or `std::list` and one argument of the
element type: `emplace_back(arg)` appends; `emplace` takes a position first,
so `c.emplace(arg)` is not valid. -/
def CppType.sequence : CppType := ⟨true, true, EmplaceType.invalid⟩

/-- A `std::set`, `std::map`, `std::unordered_set` or `std::unordered_map` and
one argument: `emplace(arg)` returns `std::pair<iterator, bool>`. -/
def CppType.unique_associative : CppType := ⟨true, false, EmplaceType.pair_iterator_bool⟩

/-- A `std::multiset` or `std::multimap` and one argument: `emplace(arg)` returns
`iterator`. -/
def CppType.multi_associative : CppType := ⟨true, false, EmplaceType.iterator⟩

/-- The type `std::tuple<Arg&...>` of the member `ZipBase::_container`: it has no
nested type `iterator`, no `emplace_back` and no `emplace`. -/
def CppType.tuple_of_references : CppType := ⟨false, false, EmplaceType.invalid⟩

/-- Embedding of `has_emplace_back<C, Arg...>::value`: the probe
`has_emplace_back_impl` is a pair of overloads, and an invalid
`emplace_back` only removes the first of them, leaving `std::false_type`. -/
def has_emplace_back (C : CppType) : Bool := C.emplace_back_valid

/-- Embedding of `has_pair_return<C, Arg>::value`, which is
`std::is_same<std::pair<typename C::iterator, bool>, decltype(c.emplace(arg))>`.
Both types are named in the base class of the struct, so when one of them is
not valid the struct cannot be instantiated at all (`none`). -/
def has_pair_return (C : CppType) : Option Bool :=
  if C.has_iterator then
    match C.emplace_type with
    | EmplaceType.invalid => none
    | EmplaceType.pair_iterator_bool => some true
    | EmplaceType.iterator => some false
  else none

/-- The three overloads of `select_return_iter`, in the order of the source:
`c.emplace_back(arg...); return c.end();`, then
`return std::get<0>(c.emplace(arg));`, then `return c.emplace(arg);`. -/
inductive Overload where
  | emplace_back
  | pair_return
  | iterator_return
deriving DecidableEq, Repr

/-- Result of substituting the deduced template arguments into the declaration
of an overload: the overload takes part in the call, it is silently removed
(substitution failure), or the substitution makes the program ill-formed. -/
inductive Substitution where
  | viable
  | removed
  | error
deriving DecidableEq, Repr

/-- Substitution into the return type of each overload of `select_return_iter`:
`std::enable_if_t<has_emplace_back<C, Arg...>::value, typename C::iterator>`,
`std::enable_if_t<has_pair_return<C, Arg>::value, typename C::iterator>` and
the unconditional `typename C::iterator`. -/
def Overload.substitute (C : CppType) : Overload → Substitution
  | Overload.emplace_back =>
    if has_emplace_back C && C.has_iterator then Substitution.viable
    else Substitution.removed
  | Overload.pair_return =>
    match has_pair_return C with
    | none => Substitution.error
    | some true => Substitution.viable
    | some false => Substitution.removed
  | Overload.iterator_return =>
    if C.has_iterator then Substitution.viable else Substitution.removed

/-- Outcome of the overload resolution of a call of `select_return_iter`. -/
inductive Resolution where
  | selected (o : Overload)
  | ambiguous
  | no_match
  | ill_formed
deriving DecidableEq, Repr

/-- Overload resolution of `select_return_iter(c, arg...)` with `nargs` arguments
after `c`.  The first overload has the parameters `(C& c, Arg&&... arg)` and is
a candidate for every `nargs`; the other two have the parameters
`(C& c, Arg&& arg)` and are candidates for `nargs = 1` only.  With one
argument, an error in a substitution makes the call ill-formed; otherwise the
two overloads without a parameter pack are more specialised than the first,
and as their parameter lists are the same neither is preferred to the other:
when both are viable the call is ambiguous. -/
def resolve (C : CppType) (nargs : Nat) : Resolution :=
  if nargs = 1 then
    if Overload.pair_return.substitute C = Substitution.error then Resolution.ill_formed
    else
      match Overload.pair_return.substitute C, Overload.iterator_return.substitute C with
      | Substitution.viable, Substitution.viable => Resolution.ambiguous
      | Substitution.viable, _ => Resolution.selected Overload.pair_return
      | _, Substitution.viable => Resolution.selected Overload.iterator_return
      | _, _ =>
        if Overload.emplace_back.substitute C = Substitution.viable then
          Resolution.selected Overload.emplace_back
        else Resolution.no_match
  else if Overload.emplace_back.substitute C = Substitution.viable then
    Resolution.selected Overload.emplace_back
  else Resolution.no_match

/-- Value of `c.emplace_back(arg...)` on a sequence container: the element
constructed from the arguments is appended. -/
def Container.emplace_back {α : Type} (c : Container α) (x : α) : Container α :=
  { c with elems := c.elems ++ [x] }

/-- Embedding of the first overload of `select_return_iter`, the one for
containers with `emplace_back`: `c.emplace_back(arg...); return c.end();`.
The result is the container after the call and the iterator returned. -/
def select_return_iter_emplace_back {α : Type} (c : Container α) (x : α) :
    Container α × Iterator :=
  let c1 := c.emplace_back x
  (c1, c1.end_)

/-- Embedding of what a call `select_return_iter(c, arg...)` with `nargs`
arguments does through the first overload; `C` answers the questions the
declarations ask about the type of `c`, `x` is the element that
`emplace_back(arg...)` constructs from the arguments.  The overload is chosen
when the program is compiled, and the body
`c.emplace_back(arg...); return c.end();` runs only in a call for which the
first overload is the one chosen.  The result is `none` for a call that is
ill-formed, ambiguous or resolved to another overload: the body that appends
does not run. -/
def select_return_iter {α : Type} (C : CppType) (nargs : Nat) (c : Container α) (x : α) :
    Option (Container α × Iterator) :=
  match resolve C nargs with
  | Resolution.selected Overload.emplace_back => some (select_return_iter_emplace_back c x)
  | _ => none

/-! ## `zip.hpp`: `emplace` -/

/-- Embedding of `make_iter_from_tuples(std::index_sequence<T...>, c, t...)`, whose
body is `makeIteratorTuple(select_return_iter(c, std::forward<Tuples>(t))...)`:
the pack expansion calls `select_return_iter` once for every argument `t`, each
time with the one object `c` and one argument; the indices `T...` are not
used.  The result lists how each of these calls is resolved for the type `C`
of `c`. -/
def make_iter_from_tuples (C : CppType) (nargs : Nat) : List Resolution :=
  List.replicate nargs (resolve C 1)

/-- Embedding of `ZipBase::emplace(t...)`, whose body is
`make_iter_from_tuples(std::index_sequence<sizeof...(t)>{}, _container, t...)`:
the object passed for `c` is the member `_container`, the tuple of references
to all the containers. -/
def ZipBase.emplace (nargs : Nat) : List Resolution :=
  make_iter_from_tuples CppType.tuple_of_references nargs

/-! ## `algorithm/sort.hpp` -/

/-- Requirement of the C++ standard on the comparator of `std::sort`, checked on
the values of the range: `comp` is irreflexive and transitive, and the
equivalence `!comp(x, y) && !comp(y, x)` is transitive (a strict weak
ordering). -/
def strict_weak_ordering {β : Type} (comp : β → β → Bool) (l : List β) : Bool :=
  l.all (fun x => !comp x x) &&
  l.all (fun x => l.all (fun y => l.all (fun z => !(comp x y && comp y z) || comp x z))) &&
  l.all (fun x => l.all (fun y => l.all (fun z =>
    !((!comp x y && !comp y x) && (!comp y z && !comp z y)) || (!comp x z && !comp z x))))

/-- What the C++ standard says of a call `std::sort(first, last, comp)` on a range
holding `old` (library code, not part of this repository).  When `comp` is a
strict weak ordering on the values, the call leaves a range `new` that is a
permutation of `old` and is sorted: no element is `comp`-less than an element
before it; the order of equivalent elements is not specified.  When `comp` is
not a strict weak ordering the behaviour is undefined (`none`). -/
def std_sort {β : Type} (comp : β → β → Bool) (old : List β) :
    Option (List β) → Prop
  | some new =>
    strict_weak_ordering comp old = true ∧ new.Perm old ∧
      new.Pairwise (fun x y => comp y x = false)
  | none => strict_weak_ordering comp old = false

instance std_sort_decidable {β : Type} [DecidableEq β] (comp : β → β → Bool)
    (old : List β) (outcome : Option (List β)) : Decidable (std_sort comp old outcome) := by
  cases outcome <;> unfold std_sort <;> infer_instance

/-- The comparator `[&](std::size_t i1, std::size_t i2) { return comp(begin[i1],
begin[i2]); }` that `index_sort` hands to `std::sort`, over the range `a`. -/
def index_comp {α : Type} (a : List α) (comp : α → α → Bool) (i1 i2 : Nat) : Bool :=
  match a[i1]?, a[i2]? with
  | some x, some y => comp x y
  | _, _ => false

/-- Embedding of `index_sort(begin, end, comp)` over the range `a` from `begin` to
`end`: `index_vec` is filled with `0, 1, ..., size - 1` by `std::iota`, sorted
by `std::sort` with the comparator on indices, and returned.  The predicate
holds of the vectors the call may return (`none`: undefined behaviour). -/
def index_sort {α : Type} (a : List α) (comp : α → α → Bool)
    (outcome : Option (List Nat)) : Prop :=
  std_sort (index_comp a comp) (List.range a.length) outcome

instance index_sort_decidable {α : Type} (a : List α) (comp : α → α → Bool)
    (outcome : Option (List Nat)) : Decidable (index_sort a comp outcome) := by
  unfold index_sort
  infer_instance

/-- Embedding of the overload `index_sort(begin, end)`, which calls `index_sort`
with `std::less` as comparator; the elements are `int`. -/
def index_sort_less (a : List Int) (outcome : Option (List Nat)) : Prop :=
  index_sort a (fun x y => decide (x < y)) outcome

instance index_sort_less_decidable (a : List Int) (outcome : Option (List Nat)) :
    Decidable (index_sort_less a outcome) := by
  unfold index_sort_less
  infer_instance

/-! ## `tuple/tuple_functions.hpp` -/

/-- Embedding of `detail::for_each_tuple_impl`: the initialiser list of `dummy`
evaluates `f(std::get<Index>(tuple))` for `Index = 0, 1, ..., n - 1` in this
order.  `f` takes the element by reference and updates it in place; `f i` is
the instance of `f` for the type of element `i`, as a function from the old
value of the element to the new one. -/
def detail.for_each_tuple_impl {n : Nat} {τ : Fin n → Type} (tuple : (i : Fin n) → τ i)
    (f : (i : Fin n) → τ i → τ i) : (i : Fin n) → τ i :=
  (List.finRange n).foldl (fun t i => Function.update t i (f i (t i))) tuple

/-- Embedding of `for_each_tuple(tuple, f)`; the result is the tuple after the
call. -/
def for_each_tuple {n : Nat} {τ : Fin n → Type} (tuple : (i : Fin n) → τ i)
    (f : (i : Fin n) → τ i → τ i) : (i : Fin n) → τ i :=
  detail.for_each_tuple_impl tuple f

/-- Type of a C++ callable that takes arguments of the types `τ 0, ..., τ (n - 1)`,
in this order, and returns a `ρ`. -/
def Callable : {n : Nat} → (Fin n → Type) → Type → Type
  | 0, _, ρ => ρ
  | _ + 1, τ, ρ => τ 0 → Callable (fun i => τ i.succ) ρ

/-- The callable that hands its arguments, in order, to a function of the tuple
of all arguments. -/
def Callable.of : {n : Nat} → {τ : Fin n → Type} → {ρ : Type} →
    (((i : Fin n) → τ i) → ρ) → Callable τ ρ
  | 0, _, _, g => g (fun i => i.elim0)
  | _ + 1, _, _, g => fun x => Callable.of (fun args => g (Fin.cons x args))

/-- Embedding of `detail::apply_tuple(f, tuple, index_sequence)`, whose body is
`return f(std::get<Index>(tuple)...);`. -/
def detail.apply_tuple : {n : Nat} → {τ : Fin n → Type} → {ρ : Type} →
    Callable τ ρ → ((i : Fin n) → τ i) → ρ
  | 0, _, _, f, _ => f
  | _ + 1, _, _, f, tuple => detail.apply_tuple (f (tuple 0)) (fun i => tuple i.succ)

/-- Embedding of `apply_tuple(f, tuple)`. -/
def apply_tuple {n : Nat} {τ : Fin n → Type} {ρ : Type} (f : Callable τ ρ)
    (tuple : (i : Fin n) → τ i) : ρ :=
  detail.apply_tuple f tuple

/-- Embedding of `detail::tuple_from_array(array, index_sequence)`, whose body is
`return std::make_tuple(array[Index]...);`, for `Index = 0, ..., array.size() - 1`. -/
def detail.tuple_from_array {α : Type} (array : List α) : (i : Fin array.length) → α :=
  fun Index => array.get Index

/-- The expressions that the functions of `tuple_functions.hpp` write as the
template argument of `std::make_index_sequence`: `for_each_tuple` and
`apply_tuple` write `std::tuple_size<std::decay_t<decltype(tuple)>>::value`,
which names a type only; `tuple_from_array` writes `array.size()`, a member
call on its function parameter `array` of the reference type `Array&&`. -/
inductive IndexSequenceLength where
  | tuple_size_value
  | size_of_reference_parameter
deriving DecidableEq, Repr

/-- Whether the expression is a constant expression, as a template argument has
to be, by the rules of C++14, the language level the header names: an
id-expression that refers to a variable of reference type is one only if the
reference has a preceding initialisation with a constant expression, and a
function parameter has none. -/
def IndexSequenceLength.is_constant_expression : IndexSequenceLength → Bool
  | IndexSequenceLength.tuple_size_value => true
  | IndexSequenceLength.size_of_reference_parameter => false

/-- Embedding of `tuple_from_array(array)`, whose body is
`return detail::tuple_from_array(std::forward<Array>(array),
std::make_index_sequence<array.size()>{});`.  When the template argument is not
a constant expression the function cannot be instantiated (`none`); otherwise
the tuple has as many elements as `array.size()`. -/
def tuple_from_array {α : Type} (array : List α) : Option ((i : Fin array.length) → α) :=
  if IndexSequenceLength.size_of_reference_parameter.is_constant_expression then
    some (detail.tuple_from_array array)
  else none

/-- Embedding of `detail::functor_tuple(t, f, index_sequence)`, whose body is
`return std::make_tuple(f(std::get<I>(t))...);`; `f i` is the instance of `f`
for the type of element `i`. -/
def detail.functor_tuple {n : Nat} {τ ρ : Fin n → Type} (t : (i : Fin n) → τ i)
    (f : (i : Fin n) → τ i → ρ i) : (i : Fin n) → ρ i :=
  fun I => f I (t I)

/-- Embedding of `functor_tuple(t, f)`. -/
def functor_tuple {n : Nat} {τ ρ : Fin n → Type} (t : (i : Fin n) → τ i)
    (f : (i : Fin n) → τ i → ρ i) : (i : Fin n) → ρ i :=
  detail.functor_tuple t f

/-- Embedding of the class `ConstructFromTuple<Tuple>`: its only member is the
reference `_tuple`. -/
structure ConstructFromTuple {n : Nat} (τ : Fin n → Type) where
  _tuple : (i : Fin n) → τ i

/-- Embedding of `construct_from_tuple(tuple)`. -/
def construct_from_tuple {n : Nat} {τ : Fin n → Type} (tuple : (i : Fin n) → τ i) :
    ConstructFromTuple τ :=
  ⟨tuple⟩

/-- Embedding of the conversion `ConstructFromTuple::operator T()`, whose body is
`return apply_tuple([](const auto&... arg) { return T(arg...); }, _tuple);`;
`ctor` is the constructor of `T` that takes the arguments. -/
def ConstructFromTuple.convert {n : Nat} {τ : Fin n → Type} {T : Type}
    (self : ConstructFromTuple τ) (ctor : Callable τ T) : T :=
  apply_tuple ctor self._tuple

/-! ## The fixture of `test_tuple.cpp` -/

/-- The class `TestTupleClass` of the tests. -/
structure TestTupleClass where
  value : Int
deriving DecidableEq, Repr

/-- The element types of `value_tuple`, `std::tuple<int, TestTupleClass>`. -/
def ValueTupleType : Fin 2 → Type
  | ⟨0, _⟩ => Int
  | ⟨_ + 1, _⟩ => TestTupleClass

/-- The tuple `value_tuple = std::make_tuple(1, TestTupleClass(2))`. -/
def value_tuple : (i : Fin 2) → ValueTupleType i
  | ⟨0, _⟩ => (1 : Int)
  | ⟨_ + 1, _⟩ => TestTupleClass.mk 2

/-- The specialisation `add_onehundred<int>` of the tests: `t += 100`. -/
def add_onehundred_int (t : Int) : Int := t + 100

/-- The specialisation `add_onehundred<TestTupleClass>` of the tests:
`t.value += 100`. -/
def add_onehundred_TestTupleClass (t : TestTupleClass) : TestTupleClass :=
  { t with value := t.value + 100 }

/-- The generic lambda `[](auto& x) { add_onehundred(x); }` of the tests, at the
two element types of `value_tuple`. -/
def add_onehundred : (i : Fin 2) → ValueTupleType i → ValueTupleType i
  | ⟨0, _⟩ => add_onehundred_int
  | ⟨_ + 1, _⟩ => add_onehundred_TestTupleClass

/-- The function template `transform` of the tests, at the two element types. -/
def transform : (i : Fin 2) → ValueTupleType i → String
  | ⟨0, _⟩, _ => "Integer"
  | ⟨_ + 1, _⟩, _ => "TestTupleClass"

/-- The class `TestClass` of the tests, with the members `_a` and `_b`; the type
`double` of `_b` is the parameter `D`, its values are only passed on. -/
structure TestClass (D : Type) where
  _a : Int
  _b : D

/-- The element types of `tuple_to_construct`, `std::tuple<int, double>`. -/
def ConstructTupleType (D : Type) : Fin 2 → Type
  | ⟨0, _⟩ => Int
  | ⟨_ + 1, _⟩ => D

/-- The tuple `tuple_to_construct = std::make_tuple(a, b)`. -/
def tuple_to_construct {D : Type} (a : Int) (b : D) : (i : Fin 2) → ConstructTupleType D i
  | ⟨0, _⟩ => a
  | ⟨_ + 1, _⟩ => b

/-- The constructor `TestClass(int a, double b)`. -/
def TestClass_ctor (D : Type) : Callable (ConstructTupleType D) (TestClass D) :=
  fun (a : Int) (b : D) => TestClass.mk a b

/-- The function of the `apply_tuple` test,
`[](int x, TestTupleClass y) { return std::make_tuple(x + 100, y.value + 100); }`. -/
def add_to_both : Callable ValueTupleType (Int × Int) :=
  fun (x : Int) (y : TestTupleClass) => (x + 100, y.value + 100)

/-! ## `type_traits/std_extension.hpp`, `type_traits/container_traits.hpp` -/

/-- Embedding of `conjugation<B...>::value`, on the values `B::value` of the
arguments: the primary template is `std::true_type`, `conjugation<Head>` is
`Head`, and `conjugation<Head, Tail...>` is
`std::conditional_t<bool(Head::value), conjugation<Tail...>, Head>`. -/
def conjugation : List Bool → Bool
  | [] => true
  | [Head] => Head
  | Head :: Tail => if Head then conjugation Tail else Head

/-- Embedding of `disjunction<B...>::value`: the primary template is
`std::false_type`, `disjunction<Head>` is `Head`, and
`disjunction<Head, Tail...>` is
`std::conditional_t<bool(Head::value), Head, disjunction<Tail...>>`. -/
def disjunction : List Bool → Bool
  | [] => false
  | [Head] => Head
  | Head :: Tail => if Head then Head else disjunction Tail

/-- Embedding of `negation<B>::value`, which is `!B::value`. -/
def negation (B : Bool) : Bool := !B

/-- Embedding of `fulfills<T, Conditions...>::value`, which is
`conjugation<Conditions<T>...>::value`; a condition is a class template with
one type parameter, here the function giving its `value` for each type. -/
def fulfills {Ty : Type} (T : Ty) (Conditions : List (Ty → Bool)) : Bool :=
  conjugation (Conditions.map (fun C => C T))

/-- The C++ types the container traits are instantiated with: fundamental types,
the specialisations of the five sequence container templates, any other
class type by its name, and the `const` and reference forms of a type. -/
inductive CType where
  | fundamental (name : String)
  | vector (T Allocator : CType)
  | array (T : CType) (N : Nat)
  | list (T Allocator : CType)
  | deque (T Allocator : CType)
  | forward_list (T Allocator : CType)
  | other_class (name : String)
  | const_ (T : CType)
  | reference (T : CType)
deriving DecidableEq, Repr

/-- The type `int`. -/
def CType.int : CType := CType.fundamental "int"

/-- The type `double`. -/
def CType.double : CType := CType.fundamental "double"

/-- The type `std::allocator<T>`. -/
def CType.allocator (_T : CType) : CType := CType.other_class "std::allocator"

/-- Embedding of `IsSequenceContainer<C>::value`: the primary template is
`std::false_type`, and there is one partial specialisation, `std::true_type`,
for each of `std::vector<T, Allocator>`, `std::array<T, N>`,
`std::list<T, Allocator>`, `std::deque<T, Allocator>` and
`std::forward_list<T, Allocator>`. -/
def IsSequenceContainer : CType → Bool
  | CType.vector _ _ => true
  | CType.array _ _ => true
  | CType.list _ _ => true
  | CType.deque _ _ => true
  | CType.forward_list _ _ => true
  | _ => false

/-- Embedding of `HasConstIterator<C>::value`, which is `IsSequenceContainer<C>`. -/
def HasConstIterator (C : CType) : Bool := IsSequenceContainer C

/-- Embedding of `HasIterator<C>::value`, which is `IsSequenceContainer<C>`. -/
def HasIterator (C : CType) : Bool := IsSequenceContainer C

/-- Embedding of `HasRandomAccess<C>::value`: the primary template is
`std::false_type`, and there is one partial specialisation, `std::true_type`,
for each of `std::vector<T, Allocator>`, `std::array<T, N>` and
`std::deque<T, Allocator>`. -/
def HasRandomAccess : CType → Bool
  | CType.vector _ _ => true
  | CType.array _ _ => true
  | CType.deque _ _ => true
  | _ => false

/-- Value of `std::is_signed<T>::value` on `int` and `double` (both are signed
arithmetic types). -/
def std_is_signed (T : CType) : Bool :=
  decide (T = CType.int) || decide (T = CType.double)

/-- Value of `std::is_integral<T>::value` on `int` and `double`. -/
def std_is_integral (T : CType) : Bool :=
  decide (T = CType.int)

/-! ## `stream/basic_file_handler.hpp` -/

/-- The largest value of the type `int`. -/
def INT_MAX : Int := 2147483647

/-- Embedding of the class `detail::BasicFileHandler`.  The member `_file`, a
`std::ofstream`, is held as the path handed to `_file.open` by the last call of
`open` (`none` before, and after `close`). -/
structure BasicFileHandler where
  _filename : String
  _file_extension : String
  _file : Option String
  _file_open : Bool
  _writing_attempts : Int
deriving DecidableEq, Repr

/-- Embedding of the constructor `BasicFileHandler(int writing_attempts)`, which
opens no file. -/
def BasicFileHandler.ctor (writing_attempts : Int) : BasicFileHandler :=
  ⟨"", "", none, false, writing_attempts⟩

/-- How a call of `open` ends: it returns, it throws `std::runtime_error`, or its
behaviour is undefined (the `int` counter overflows).  The first two carry the
object as the call leaves it. -/
inductive OpenOutcome where
  | returned (self : BasicFileHandler)
  | runtime_error (what : String) (self : BasicFileHandler)
  | undefined
deriving DecidableEq, Repr

/-- Embedding of the `while` loop of `BasicFileHandler::open(filename,
file_extension)`, run for at most `fuel` evaluations of its condition, and of
the statements after it.  `stat path` tells whether `stat(path, &buffer)` is
not `-1`, that is whether the path exists; `file_extension` is the extension
with its dot; `count` and `filename_new` are the local variables. -/
def BasicFileHandler.open_loop (stat : String → Bool) (filename file_extension : String)
    (self : BasicFileHandler) : Nat → Int → String → Option OpenOutcome
  | 0, _, _ => none
  | fuel + 1, count, filename_new =>
    if stat (filename_new ++ file_extension) then
      if count = INT_MAX then some OpenOutcome.undefined
      else
        let count1 := count + 1
        if count1 = self._writing_attempts then
          some (OpenOutcome.runtime_error
            ("Could not open file after " ++ toString self._writing_attempts ++
              " attempts.\n") self)
        else
          BasicFileHandler.open_loop stat filename file_extension self fuel count1
            (filename ++ "-" ++ toString count1)
    else
      some (OpenOutcome.returned
        { self with
          _filename := filename_new ++ file_extension
          _file := some (filename_new ++ file_extension)
          _file_open := true })

/-- Embedding of `BasicFileHandler::open(filename, file_extension)`: the extension
is stored, a dot is put before it when it is not empty, and the loop starts
with `count = 0` at the name `filename`. -/
def BasicFileHandler.open (stat : String → Bool) (self : BasicFileHandler)
    (filename file_extension : String) (fuel : Nat) : Option OpenOutcome :=
  BasicFileHandler.open_loop stat filename
    (if file_extension = "" then file_extension else "." ++ file_extension)
    { self with _file_extension := file_extension } fuel 0 filename

/-- Embedding of `BasicFileHandler::getFilename()`. -/
def BasicFileHandler.getFilename (self : BasicFileHandler) : String :=
  self._filename

/-- The name tried at attempt `j`, without its extension: `filename` itself, then
`filename-1`, `filename-2`, ... -/
def numbered (filename : String) (j : Nat) : String :=
  if j = 0 then filename else filename ++ "-" ++ toString (j : Int)

/-- The extension as it is appended to a name: with a dot before it, unless it is
empty. -/
def dotted (extension : String) : String :=
  if extension = "" then extension else "." ++ extension

/-- The names of the class documentation, `filename.extension`,
`filename-1.extension`, `filename-2.extension`, ...; no dot is added when the
extension is empty. -/
def candidate (filename extension : String) (j : Nat) : String :=
  numbered filename j ++ dotted extension

/-- A directory in which `data.txt` and `data-1.txt` exist. -/
def two_taken (path : String) : Bool :=
  path = "data.txt" || path = "data-1.txt"

/-! ## `algorithm/parallel_algorithm.hpp` -/

/-- Embedding of `for (auto iter = start; iter != zip.end(); ++iter) body`, run
for at most `fuel` tests of the loop condition.  The body sees the view, the
cursor and the caller's local state; `zip.end()` is evaluated anew before
every iteration.  The result is the view and the local state when the loop
stops. -/
def forLoop {n : Nat} {α : Fin (n + 1) → Type} {σ : Type}
    (body : ZipBase n α → IteratorTuple (n + 1) → σ → Option (ZipBase n α × σ)) :
    Nat → ZipBase n α → IteratorTuple (n + 1) → σ → Option (ZipBase n α × σ)
  | 0, _, _, _ => none
  | fuel + 1, zip, iter, s =>
    if IteratorTuple.ne iter zip.end_ then
      match body zip iter s with
      | none => none
      | some (zip1, s1) => forLoop body fuel zip1 (IteratorTuple.preInc iter).1 s1
    else some (zip, s)

/-- Loop body that only counts the iterations (`++counter`). -/
def countBody {n : Nat} {α : Fin (n + 1) → Type} (zip : ZipBase n α)
    (_iter : IteratorTuple (n + 1)) (counter : Nat) : Option (ZipBase n α × Nat) :=
  some (zip, counter + 1)

/-- The statements `std::get<i>(*iter) = w i;` for `i = 0, ..., N - 1`, in this
order. -/
def write_tuple {N : Nat} {α : Fin N → Type} (cs : Containers α)
    (iter : IteratorTuple N) (w : (i : Fin N) → α i) : Option (Containers α) :=
  (List.finRange N).foldlM (fun cs1 i => IteratorTuple.assign_through cs1 iter i (w i)) cs

/-- Body of the writing loop of the test (`std::get<i>(*iter) = ...; ++counter;`):
at the step numbered `counter` the tuple `w counter` is written through
`*iter`. -/
def writeBody {n : Nat} {α : Fin (n + 1) → Type} (w : Nat → (i : Fin (n + 1)) → α i)
    (zip : ZipBase n α) (iter : IteratorTuple (n + 1)) (counter : Nat) :
    Option (ZipBase n α × Nat) :=
  match write_tuple zip._container iter (w counter) with
  | none => none
  | some cs1 => some ({ zip with _container := cs1 }, counter + 1)

/-- Body of the reading loop of the test: every component of `*iter` is read and
the tuple of values is appended to the log. -/
def readBody {n : Nat} {α : Fin (n + 1) → Type} (zip : ZipBase n α)
    (iter : IteratorTuple (n + 1)) (log : List ((i : Fin (n + 1)) → Option (α i))) :
    Option (ZipBase n α × List ((i : Fin (n + 1)) → Option (α i))) :=
  match iter.deref zip._container with
  | none => none
  | some t => some (zip, log ++ [fun i => (t i).read zip._container i])

/-! ## The precondition of `++` -/

/-- Increment `++it` of an iterator into `c` as the C++ standard defines it: the
iterator must point at an element of `c`.  Incrementing `c.end()`, or an
iterator beyond it, is undefined (`none`). -/
def Container.increment {α : Type} (c : Container α) (it : Iterator) : Option Iterator :=
  if it.pos < c.size then some it.inc else none

/-- Embedding of `IteratorTuple::operator++()` on a cursor into the containers
`cs`: `iter_impl` increments every component, so the call is defined only when
every component can be incremented; the result is the object after the
call. -/
def IteratorTuple.increment {N : Nat} {α : Fin N → Type} (cs : Containers α)
    (self : IteratorTuple N) : Option (IteratorTuple N) :=
  if ∀ i, ((cs i).increment (self._iter_pos i)).isSome = true then
    some (IteratorTuple.preInc self).1
  else none

/-- The cursor after `k` prefix increments into the containers `cs`; undefined
as soon as one of the increments is. -/
def IteratorTuple.advance_in {N : Nat} {α : Fin N → Type} (cs : Containers α) :
    Nat → IteratorTuple N → Option (IteratorTuple N)
  | 0, self => some self
  | k + 1, self =>
    match self.increment cs with
    | none => none
    | some next => IteratorTuple.advance_in cs k next

/-- How a run of a loop ends: the loop condition is found false and the loop
stops, or the run reaches a step that C++ leaves undefined. -/
inductive Run (ρ : Type) where
  | stopped (result : ρ)
  | undefined

/-- Embedding of `for (auto iter = start; iter != zip.end(); ++iter) body` with the
preconditions of the body and of `++iter`, run for at most `fuel` tests of the
loop condition (`none` when these do not suffice). -/
def forLoopChecked {n : Nat} {α : Fin (n + 1) → Type} {σ : Type}
    (body : ZipBase n α → IteratorTuple (n + 1) → σ → Option (ZipBase n α × σ)) :
    Nat → ZipBase n α → IteratorTuple (n + 1) → σ → Option (Run (ZipBase n α × σ))
  | 0, _, _, _ => none
  | fuel + 1, zip, iter, s =>
    if IteratorTuple.ne iter zip.end_ then
      match body zip iter s with
      | none => some Run.undefined
      | some (zip1, s1) =>
        match iter.increment zip1._container with
        | none => some Run.undefined
        | some next => forLoopChecked body fuel zip1 next s1
    else some (Run.stopped (zip, s))

/-! ## The fixture of `test_iterator.cpp` -/

/-- The vector `std::vector<int> vec{10, 11, 12}`; the value of `max_size()` is
the one of a 64-bit implementation. -/
def vec : Container Int := ⟨[10, 11, 12], 2305843009213693951⟩

/-- The array `std::array<int, 3> arr{20, 21, 22}`. -/
def arr : Container Int := ⟨[20, 21, 22], 3⟩

/-- The pair of containers `(vec, arr)` of the tests. -/
def vec_arr : Containers (fun _ : Fin 2 => Int) :=
  fun i => if i = 0 then vec else arr

/-- The tuples `(30 + counter, 40 + counter)` written by the tests. -/
def written (counter : Nat) (i : Fin 2) : Int :=
  if i = 0 then 30 + counter else 40 + counter

/-- The cursor `iter_vec_arr(vec.begin(), arr.begin())` of the tests. -/
def iter_vec_arr : IteratorTuple 2 :=
  makeIteratorTuple (fun i => (vec_arr i).begin)

/-- The cursor `iter_vec_arr_inc(vec_iter_inc, arr_iter_inc)` of the tests, built
from the two component iterators one step after `begin()`. -/
def iter_vec_arr_inc : IteratorTuple 2 :=
  makeIteratorTuple (fun i => ((vec_arr i).begin).inc)

/-- Two empty containers (two `std::set<int>`; the value of `max_size()` is the
one of a 64-bit implementation). -/
def empty_pair : Containers (fun _ : Fin 2 => Int) :=
  fun _ => ⟨[], 230584300921369395⟩

/-- Two empty `std::vector<int>`. -/
def empty_vectors : Containers (fun _ : Fin 2 => Int) :=
  fun _ => ⟨[], 2305843009213693951⟩

/-- An empty `std::vector<int>` and the vector `std::vector<int>{20}`. -/
def half_empty_vectors : Containers (fun _ : Fin 2 => Int) :=
  fun i => if i = 0 then ⟨[], 2305843009213693951⟩ else ⟨[20], 2305843009213693951⟩

/-- The wrapped types of `ZipBase<std::vector<int>, std::array<int, 3>>`, the view
of the tests. -/
def vector_array : Fin 2 → ContainerType :=
  fun i => if i = 0 then ContainerType.vector else ContainerType.array

/-- The wrapped types of `ZipBase<std::vector<int>, std::vector<int>>`. -/
def vector_vector : Fin 2 → ContainerType :=
  fun _ => ContainerType.vector

/-- The wrapped types of `ZipBase<std::set<int>, std::set<int>>`. -/
def set_set : Fin 2 → ContainerType :=
  fun _ => ContainerType.set

/-- Two containers of different sizes: `std::vector<int>{10, 11, 12}` and
`std::array<int, 2>{20, 21}`. -/
def unequal_pair : Containers (fun _ : Fin 2 => Int) :=
  fun i => if i = 0 then vec else ⟨[20, 21], 2⟩

/-- An empty and a non-empty container (two `std::set<int>`, the second holding
`20`). -/
def half_empty_pair : Containers (fun _ : Fin 2 => Int) :=
  fun i => if i = 0 then ⟨[], 230584300921369395⟩ else ⟨[20], 230584300921369395⟩

/-! ## Theorems -/

/-- C1: two cursors of the same arity compare equal with `==` exactly when
every pair of components is equal. -/
theorem C1_eq_iff_componentwise {N : Nat} (a b : IteratorTuple N) :
    IteratorTuple.eq a b = true ↔ ∀ i : Fin N, a.get i = b.get i := by
  simp [IteratorTuple.eq, tuple_eq, IteratorTuple.get, List.all_eq_true]

/-- C2: `a != b` is true exactly when some pair of components differs, and it
is the negation of `a == b`. -/
theorem C2_ne_iff_some_component_differs {N : Nat} (a b : IteratorTuple N) :
    (IteratorTuple.ne a b = true ↔ ∃ i : Fin N, a.get i ≠ b.get i) ∧
      IteratorTuple.ne a b = !(IteratorTuple.eq a b) := by
  refine ⟨?_, rfl⟩
  simp [IteratorTuple.ne, tuple_ne, tuple_eq, IteratorTuple.get]


/-! ### Auxiliary lemmas -/

theorem foldl_update_apply {N : Nat} (f : Iterator → Iterator) (l : List (Fin N))
    (hl : l.Nodup) (iter : Fin N → Iterator) (j : Fin N) :
    l.foldl (fun it i => Function.update it i (f (it i))) iter j =
      if j ∈ l then f (iter j) else iter j := by
  induction l generalizing iter with
  | nil => simp
  | cons a l ih =>
    rw [List.nodup_cons] at hl
    rw [List.foldl_cons, ih hl.2]
    by_cases hj : j ∈ l
    · have hne : j ≠ a := fun h => hl.1 (h ▸ hj)
      simp [hj, Function.update_noteq hne]
    · by_cases hja : j = a
      · subst hja
        simp [hj]
      · simp [hj, hja, Function.update_noteq hja]

theorem iter_impl_apply {N : Nat} (f : Iterator → Iterator) (iter : Fin N → Iterator)
    (j : Fin N) : iter_impl f iter j = f (iter j) := by
  unfold iter_impl
  rw [foldl_update_apply f _ (List.nodup_finRange N)]
  simp

theorem preInc_fst_pos {N : Nat} (c : IteratorTuple N) (j : Fin N) :
    (IteratorTuple.preInc c).1._iter_pos j = ⟨(c._iter_pos j).pos + 1⟩ := by
  simp [IteratorTuple.preInc, iter_impl_apply, Iterator.inc]

theorem advance_pos {N : Nat} (k : Nat) (c : IteratorTuple N) (j : Fin N) :
    (IteratorTuple.advance k c)._iter_pos j = ⟨(c._iter_pos j).pos + k⟩ := by
  induction k generalizing c with
  | zero => simp [IteratorTuple.advance]
  | succ k ih =>
    have h := ih (IteratorTuple.preInc c).1
    simp only [IteratorTuple.advance, Function.iterate_succ, Function.comp] at h ⊢
    rw [h, preInc_fst_pos]
    simp only [Iterator.mk.injEq]
    omega

theorem deref_eq_some {N : Nat} {α : Fin N → Type} (cs : Containers α)
    (c : IteratorTuple N) (h : ∀ i, (c._iter_pos i).pos < (cs i).size) :
    c.deref cs = some (fun i => ⟨(c._iter_pos i).pos⟩) := by
  have h1 : ∀ i, (cs i).deref (c._iter_pos i) = some ⟨(c._iter_pos i).pos⟩ := by
    intro i
    simp [Container.deref, h i]
  have h2 : ∀ i, ((cs i).deref (c._iter_pos i)).isSome := by
    intro i
    rw [h1 i]
    rfl
  unfold IteratorTuple.deref make_deref_impl
  rw [dif_pos h2]
  congr 1
  funext i
  simp [h1 i]

theorem tuple_eq_iff {N : Nat} {τ : Fin N → Type} [∀ i, DecidableEq (τ i)]
    (a b : (i : Fin N) → τ i) : tuple_eq a b = true ↔ ∀ i, a i = b i := by
  simp [tuple_eq]

theorem read_at {N : Nat} {α : Fin N → Type} (cs : Containers α) (i : Fin N) (p : Nat)
    (h : p < (cs i).size) :
    Reference.read cs i ⟨p⟩ = some ((cs i).elems.get ⟨p, h⟩) := by
  simp only [Reference.read]
  exact List.getElem?_eq_getElem h

theorem size_update_set {N : Nat} {α : Fin N → Type} (cs : Containers α) (i : Fin N)
    (p : Nat) (v : α i) (j : Fin N) :
    (Function.update cs i { cs i with elems := (cs i).elems.set p v } j).size = (cs j).size := by
  by_cases hj : j = i
  · subst hj
    simp [Container.size]
  · rw [Function.update_noteq hj]

theorem assign_through_eq {N : Nat} {α : Fin N → Type} (cs : Containers α)
    (c : IteratorTuple N) (i : Fin N) (v : α i)
    (h : ∀ j, (c._iter_pos j).pos < (cs j).size) :
    c.assign_through cs i v =
      some (Function.update cs i
        { cs i with elems := (cs i).elems.set (c._iter_pos i).pos v }) := by
  simp [IteratorTuple.assign_through, deref_eq_some cs c h, Reference.assign, h i]

theorem read_through_eq {N : Nat} {α : Fin N → Type} (cs : Containers α)
    (c : IteratorTuple N) (i : Fin N)
    (h : ∀ j, (c._iter_pos j).pos < (cs j).size) :
    c.read_through cs i = (cs i).elems[(c._iter_pos i).pos]? := by
  simp [IteratorTuple.read_through, deref_eq_some cs c h, Reference.read]

theorem foldlM_assign_through {N : Nat} {α : Fin N → Type} (c : IteratorTuple N)
    (w : (i : Fin N) → α i) (l : List (Fin N)) (hl : l.Nodup) (cs : Containers α)
    (h : ∀ j, (c._iter_pos j).pos < (cs j).size) :
    l.foldlM (fun cs1 i => IteratorTuple.assign_through cs1 c i (w i)) cs =
      some (fun j => if j ∈ l then
        { cs j with elems := (cs j).elems.set (c._iter_pos j).pos (w j) } else cs j) := by
  induction l generalizing cs with
  | nil => simp
  | cons a l ih =>
    rw [List.nodup_cons] at hl
    rw [List.foldlM_cons, assign_through_eq cs c a (w a) h]
    simp only [Option.bind_eq_bind, Option.some_bind]
    rw [ih hl.2 _ (fun j => by rw [size_update_set]; exact h j)]
    congr 1
    funext j
    by_cases hj : j ∈ l
    · have hne : j ≠ a := fun e => hl.1 (e ▸ hj)
      simp [hj, Function.update_noteq hne]
    · by_cases hja : j = a
      · subst hja
        simp [hj]
      · simp [hj, hja, Function.update_noteq hja]

theorem write_tuple_eq {N : Nat} {α : Fin N → Type} (cs : Containers α)
    (c : IteratorTuple N) (w : (i : Fin N) → α i)
    (h : ∀ j, (c._iter_pos j).pos < (cs j).size) :
    write_tuple cs c w =
      some (fun j => { cs j with elems := (cs j).elems.set (c._iter_pos j).pos (w j) }) := by
  unfold write_tuple
  rw [foldlM_assign_through c w _ (List.nodup_finRange N) cs h]
  simp

theorem ne_end_of_ne {n : Nat} {α : Fin (n + 1) → Type} (z : ZipBase n α) (k L : Nat)
    (hL : ∀ i, (z._container i).size = L) (hk : k ≠ L) :
    IteratorTuple.ne (⟨fun _ => ⟨k⟩⟩ : IteratorTuple (n + 1)) z.end_ = true := by
  have h0 : (z._container 0).elems.length = L := hL 0
  simp only [IteratorTuple.ne, tuple_ne, Bool.not_eq_true', ← Bool.not_eq_true, tuple_eq_iff]
  intro h
  have := h 0
  simp [ZipBase.end_, create_iterator_from_tuple, Container.end_, h0] at this
  exact hk this

theorem ne_end_of_eq {n : Nat} {α : Fin (n + 1) → Type} (z : ZipBase n α) (L : Nat)
    (hL : ∀ i, (z._container i).size = L) :
    IteratorTuple.ne (⟨fun _ => ⟨L⟩⟩ : IteratorTuple (n + 1)) z.end_ = false := by
  have h0 : ∀ i, (z._container i).elems.length = L := hL
  simp only [IteratorTuple.ne, tuple_ne, Bool.not_eq_false', tuple_eq_iff]
  intro i
  simp [ZipBase.end_, create_iterator_from_tuple, Container.end_, h0 i]

theorem preInc_const {N : Nat} (k : Nat) :
    (IteratorTuple.preInc (⟨fun _ => ⟨k⟩⟩ : IteratorTuple N)).1 = ⟨fun _ => ⟨k + 1⟩⟩ := by
  ext1
  funext i
  rw [preInc_fst_pos]

theorem advance_begin {n : Nat} {α : Fin (n + 1) → Type} (z : ZipBase n α) (k : Nat) :
    IteratorTuple.advance k z.begin = ⟨fun _ => ⟨k⟩⟩ := by
  ext1
  funext i
  rw [advance_pos]
  simp [ZipBase.begin, create_iterator_from_tuple, Container.begin]

theorem count_loop {n : Nat} {α : Fin (n + 1) → Type} (z : ZipBase n α) (m : Nat) :
    ∀ (k c fuel : Nat), (∀ i, (z._container i).size = k + m) → m < fuel →
      forLoop countBody fuel z ⟨fun _ => ⟨k⟩⟩ c = some (z, c + m) := by
  induction m with
  | zero =>
    intro k c fuel hL hf
    obtain ⟨f, rfl⟩ : ∃ f, fuel = f + 1 := ⟨fuel - 1, by omega⟩
    simp [forLoop, ne_end_of_eq z k hL]
  | succ m ih =>
    intro k c fuel hL hf
    obtain ⟨f, rfl⟩ : ∃ f, fuel = f + 1 := ⟨fuel - 1, by omega⟩
    have hne := ne_end_of_ne z k (k + (m + 1)) hL (by omega)
    simp only [forLoop, hne, if_true, countBody, preInc_const]
    rw [ih (k + 1) (c + 1) f (fun i => by rw [hL i]; omega) (by omega)]
    congr 2
    omega

theorem take_succ_set {β : Type} (l : List β) (k : Nat) (v : β) (h : k < l.length) :
    (l.set k v).take (k + 1) = l.take k ++ [v] := by
  induction l generalizing k with
  | nil => simp at h
  | cons a l ih =>
    cases k with
    | zero => simp
    | succ k =>
      have hk : k < l.length := by simpa using h
      simp [ih k hk]

theorem read_loop {n : Nat} {α : Fin (n + 1) → Type} (z : ZipBase n α) (m : Nat) :
    ∀ (k : Nat) (log : List ((i : Fin (n + 1)) → Option (α i))) (fuel : Nat),
      (∀ i, (z._container i).size = k + m) → m < fuel →
      forLoop readBody fuel z ⟨fun _ => ⟨k⟩⟩ log =
        some (z, log ++ (List.range' k m).map (fun j i => (z._container i).elems[j]?)) := by
  induction m with
  | zero =>
    intro k log fuel hL hf
    obtain ⟨f, rfl⟩ : ∃ f, fuel = f + 1 := ⟨fuel - 1, by omega⟩
    simp [forLoop, ne_end_of_eq z k hL]
  | succ m ih =>
    intro k log fuel hL hf
    obtain ⟨f, rfl⟩ : ∃ f, fuel = f + 1 := ⟨fuel - 1, by omega⟩
    have hne := ne_end_of_ne z k (k + (m + 1)) hL (by omega)
    have hd := deref_eq_some z._container (⟨fun _ => ⟨k⟩⟩ : IteratorTuple (n + 1))
      (fun i => by rw [hL i]; show k < k + (m + 1); omega)
    simp only [forLoop, hne, if_true, readBody, hd, preInc_const]
    rw [ih (k + 1) _ f (fun i => by rw [hL i]; omega) (by omega)]
    simp [List.range'_succ, Reference.read]

theorem write_loop {n : Nat} {α : Fin (n + 1) → Type} (w : Nat → (i : Fin (n + 1)) → α i)
    (m : Nat) :
    ∀ (z : ZipBase n α) (k fuel : Nat),
      (∀ i, (z._container i).size = k + m) → m < fuel →
      ∃ z1, forLoop (writeBody w) fuel z ⟨fun _ => ⟨k⟩⟩ k = some (z1, k + m) ∧
        ∀ i, (z1._container i).elems =
          (z._container i).elems.take k ++ (List.range' k m).map (fun j => w j i) := by
  induction m with
  | zero =>
    intro z k fuel hL hf
    obtain ⟨f, rfl⟩ : ∃ f, fuel = f + 1 := ⟨fuel - 1, by omega⟩
    refine ⟨z, by simp [forLoop, ne_end_of_eq z k hL], ?_⟩
    intro i
    have hi : (z._container i).elems.length = k := hL i
    simp [← hi]
  | succ m ih =>
    intro z k fuel hL hf
    obtain ⟨f, rfl⟩ : ∃ f, fuel = f + 1 := ⟨fuel - 1, by omega⟩
    have hne := ne_end_of_ne z k (k + (m + 1)) hL (by omega)
    have hw := write_tuple_eq z._container (⟨fun _ => ⟨k⟩⟩ : IteratorTuple (n + 1)) (w k)
      (fun i => by rw [hL i]; show k < k + (m + 1); omega)
    obtain ⟨z1, h1, h2⟩ := ih
      { z with _container := fun j =>
          { z._container j with elems := (z._container j).elems.set k (w k j) } }
      (k + 1) f
      (fun i => by
        have := hL i
        simp only [Container.size, List.length_set] at this ⊢
        omega)
      (by omega)
    refine ⟨z1, ?_, ?_⟩
    · simp only [forLoop, hne, if_true, writeBody, hw, preInc_const]
      rw [h1]
      congr 2
      omega
    · intro i
      have hi : k < (z._container i).elems.length := by
        have := hL i
        simp only [Container.size] at this
        omega
      rw [h2 i]
      simp [List.range'_succ, take_succ_set _ k _ hi]

/-! ### The claims -/

/-- C3: `size()` returns the member `_length`, which the constructor
`ZipBase(Arg&...)` never initialises: the result is whatever the storage of the
object held and does not depend on the containers.  For the view over
`vector<int>{10,11,12}` and `array<int,3>{20,21,22}` built in storage holding
`0`, `size()` is `0` although both containers have size `3`. -/
theorem C3_size_returns_uninitialised_length :
    (∀ (n : Nat) (α : Fin (n + 1) → Type) (cs : Containers α) (u : Nat),
        (ZipBase.ctor cs u).size = u) ∧
      (ZipBase.ctor vec_arr 0).size = 0 ∧
      (vec_arr 0).size = 3 ∧ (vec_arr 1).size = 3 :=
  ⟨fun _ _ _ _ => rfl, rfl, rfl, rfl⟩

/-- C4: for a view over any number of containers and every `k` smaller than
the size of each of them, the cursor obtained from `begin()` by `k` increments
can be dereferenced, and component `i` of the result reads element `k` of
container `i`. -/
theorem C4_advanced_begin_reads_kth {n : Nat} {α : Fin (n + 1) → Type}
    (cs : Containers α) (u k : Nat) (hk : ∀ i, k < (cs i).size) :
    ∃ t, (IteratorTuple.advance k (ZipBase.ctor cs u).begin).deref cs = some t ∧
      ∀ i, (t i).read cs i = some ((cs i).elems.get ⟨k, hk i⟩) := by
  have hpos : ∀ i, ((IteratorTuple.advance k (ZipBase.ctor cs u).begin)._iter_pos i).pos = k := by
    intro i
    rw [advance_pos]
    simp [ZipBase.begin, create_iterator_from_tuple, Container.begin]
  refine ⟨_, deref_eq_some cs _ (fun i => by rw [hpos i]; exact hk i), ?_⟩
  intro i
  simp only [hpos i]
  exact read_at cs i k (hk i)

/-- C4 at two sequences: two steps after `begin()` the cursor over
`{10,11,12}` and `{20,21,22}` reads `(12, 22)`. -/
theorem C4_advanced_begin_reads_kth_witness :
    ∃ t, (IteratorTuple.advance 2 (ZipBase.ctor vec_arr 0).begin).deref vec_arr = some t ∧
      ∀ i, (t i).read vec_arr i =
        some ((vec_arr i).elems.get ⟨2, by revert i; decide⟩) :=
  C4_advanced_begin_reads_kth vec_arr 0 2 (by decide)

/-- C6: when every component of a cursor can be dereferenced, `*c` is a tuple
of `N` references and element `i` reads the element of container `i` at the
offset held by component `i`. -/
theorem C6_deref_reads_each_component {N : Nat} {α : Fin N → Type}
    (cs : Containers α) (c : IteratorTuple N)
    (h : ∀ i, (c.get i).pos < (cs i).size) :
    ∃ t, c.deref cs = some t ∧
      ∀ i, (t i).read cs i = some ((cs i).elems.get ⟨(c.get i).pos, h i⟩) :=
  ⟨_, deref_eq_some cs c h, fun i => read_at cs i _ (h i)⟩

/-- C6 at the fixture: the cursor at `begin()` of `{10,11,12}` and
`{20,21,22}` can be dereferenced. -/
theorem C6_deref_reads_each_component_witness :
    (∃ t, (makeIteratorTuple (fun i => (vec_arr i).begin)).deref vec_arr = some t ∧
      ∀ i, (t i).read vec_arr i =
        some ((vec_arr i).elems.get
          ⟨((makeIteratorTuple (fun i => (vec_arr i).begin)).get i).pos,
            by revert i; decide⟩)) ∧
      (makeIteratorTuple (fun i => (vec_arr i).begin)).read_through vec_arr 0 = some 10 ∧
      (makeIteratorTuple (fun i => (vec_arr i).begin)).read_through vec_arr 1 = some 20 ∧
      (IteratorTuple.preInc (makeIteratorTuple (fun i => (vec_arr i).begin))).2.read_through
        vec_arr 0 = some 11 ∧
      (IteratorTuple.preInc (makeIteratorTuple (fun i => (vec_arr i).begin))).2.read_through
        vec_arr 1 = some 21 :=
  ⟨C6_deref_reads_each_component vec_arr _ (by decide), by decide, by decide, by decide,
    by decide⟩

/-- C9: `begin()` of the view built from the containers is the cursor built by
`makeIteratorTuple` from `begin()` of every container, and `end()` the one
built from `end()` of every container; the two compare equal with `==`. -/
theorem C9_begin_end_equal_manual_cursor {n : Nat} {α : Fin (n + 1) → Type}
    (cs : Containers α) (u : Nat) :
    (ZipBase.ctor cs u).begin = makeIteratorTuple (fun i => (cs i).begin) ∧
      (ZipBase.ctor cs u).end_ = makeIteratorTuple (fun i => (cs i).end_) ∧
      IteratorTuple.eq (ZipBase.ctor cs u).begin
        (makeIteratorTuple (fun i => (cs i).begin)) = true ∧
      IteratorTuple.eq (ZipBase.ctor cs u).end_
        (makeIteratorTuple (fun i => (cs i).end_)) = true := by
  refine ⟨rfl, rfl, ?_, ?_⟩ <;>
    simp [IteratorTuple.eq, tuple_eq_iff, ZipBase.begin, ZipBase.end_, ZipBase.ctor,
      create_iterator_from_tuple, makeIteratorTuple]

/-- C10: prefix increment moves every component one position forward: the
cursor becomes the one built from `(p_1 + 1, ..., p_N + 1)`, and the value
returned by `++c` is this advanced cursor. -/
theorem C10_prefix_increment_advances_all {N : Nat} (c : IteratorTuple N) :
    (IteratorTuple.preInc c).1 = makeIteratorTuple (fun i => ⟨(c.get i).pos + 1⟩) ∧
      (IteratorTuple.preInc c).2 = (IteratorTuple.preInc c).1 := by
  refine ⟨?_, rfl⟩
  ext1
  funext i
  rw [preInc_fst_pos]
  rfl

/-- C7: after `v` is assigned through element `i` of `*c`, dereferencing `c`
again reads `v` in component `i`, and container `i` itself holds `v` at the
offset of component `i`. -/
theorem C7_write_through_deref_reaches_container {N : Nat} {α : Fin N → Type}
    (cs : Containers α) (c : IteratorTuple N) (i : Fin N) (v : α i)
    (h : ∀ j, (c.get j).pos < (cs j).size) :
    ∃ cs1, c.assign_through cs i v = some cs1 ∧
      c.read_through cs1 i = some v ∧
      (cs1 i).elems[(c.get i).pos]? = some v := by
  refine ⟨_, assign_through_eq cs c i v h, ?_, ?_⟩
  · rw [read_through_eq _ c i (fun j => by rw [size_update_set]; exact h j)]
    have hi : (c._iter_pos i).pos < (cs i).elems.length := h i
    simp [hi]
  · have hi : (c._iter_pos i).pos < (cs i).elems.length := h i
    simp [IteratorTuple.get, hi]

/-- C7 at the fixture: `std::get<1>(*iter) = 99` at `begin()` of `{10,11,12}` and
`{20,21,22}`. -/
theorem C7_write_through_deref_reaches_container_witness :
    ∃ cs1, (makeIteratorTuple (fun i => (vec_arr i).begin)).assign_through vec_arr 1 99
        = some cs1 ∧
      (makeIteratorTuple (fun i => (vec_arr i).begin)).read_through cs1 1 = some 99 ∧
      (cs1 1).elems[((makeIteratorTuple (fun i => (vec_arr i).begin)).get 1).pos]? = some 99 :=
  C7_write_through_deref_reaches_container vec_arr _ 1 99 (by decide)

/-- C5: over containers that all have length `len`, the cursor obtained from
`begin()` by `k` increments equals `end()` exactly when `k = len`, and the loop
`for (it = begin(); it != end(); ++it)` stops after exactly `len` iterations,
the wrapped containers unchanged. -/
theorem C5_equal_length_loop_runs_len_times {n : Nat} {α : Fin (n + 1) → Type}
    (z : ZipBase n α) (len : Nat) (hlen : ∀ i, (z._container i).size = len) :
    (∀ k, IteratorTuple.eq (IteratorTuple.advance k z.begin) z.end_ = true ↔ k = len) ∧
      (∀ fuel, len < fuel → forLoop countBody fuel z z.begin 0 = some (z, len)) := by
  constructor
  · intro k
    rw [advance_begin]
    constructor
    · intro h
      by_contra hk
      have := ne_end_of_ne z k len hlen hk
      simp [IteratorTuple.ne, tuple_ne, IteratorTuple.eq] at this h
      rw [h] at this
      exact Bool.noConfusion this
    · rintro rfl
      have := ne_end_of_eq z k hlen
      simpa [IteratorTuple.ne, tuple_ne, IteratorTuple.eq] using this
  · intro fuel hf
    have h := count_loop z len 0 0 fuel (fun i => by rw [hlen i]; omega) hf
    have hb : z.begin = ⟨fun _ => ⟨0⟩⟩ := rfl
    rw [hb, h]
    simp

/-- C5 at the fixture: the loop over `{10,11,12}` and `{20,21,22}`. -/
theorem C5_equal_length_loop_runs_len_times_witness :
    (∀ k, IteratorTuple.eq (IteratorTuple.advance k (ZipBase.ctor vec_arr 0).begin)
        (ZipBase.ctor vec_arr 0).end_ = true ↔ k = 3) ∧
      (∀ fuel, 3 < fuel →
        forLoop countBody fuel (ZipBase.ctor vec_arr 0) (ZipBase.ctor vec_arr 0).begin 0
          = some (ZipBase.ctor vec_arr 0, 3)) :=
  C5_equal_length_loop_runs_len_times (ZipBase.ctor vec_arr 0) 3 (by decide)

/-- C8: over containers that all have length `len`, a traversal from `begin()`
to `end()` that writes the tuple `w k` through `*iter` at step `k` runs `len`
steps, and a second traversal of the resulting view reads exactly
`w 0, ..., w (len - 1)`, in this order. -/
theorem C8_written_tuples_are_read_back {n : Nat} {α : Fin (n + 1) → Type}
    (z : ZipBase n α) (len : Nat) (hlen : ∀ i, (z._container i).size = len)
    (w : Nat → (i : Fin (n + 1)) → α i) (fuel : Nat) (hf : len < fuel) :
    ∃ z1, forLoop (writeBody w) fuel z z.begin 0 = some (z1, len) ∧
      forLoop readBody fuel z1 z1.begin [] =
        some (z1, (List.range len).map (fun k i => some (w k i))) := by
  obtain ⟨z1, h1, h2⟩ := write_loop w len z 0 fuel (fun i => by rw [hlen i]; omega) hf
  have hb : z.begin = ⟨fun _ => ⟨0⟩⟩ := rfl
  have hb1 : z1.begin = ⟨fun _ => ⟨0⟩⟩ := rfl
  have he : ∀ i, (z1._container i).elems = (List.range len).map (fun j => w j i) := by
    intro i
    rw [h2 i, List.range_eq_range']
    simp
  refine ⟨z1, ?_, ?_⟩
  · rw [hb, h1]
    simp
  · rw [hb1, read_loop z1 len 0 [] fuel
      (fun i => by simp [Container.size, he i]) hf]
    simp only [List.nil_append, ← List.range_eq_range']
    congr 2
    apply List.map_congr_left
    intro k hk
    funext i
    rw [he i]
    simp [List.mem_range.mp hk]

/-- C8 at the fixture: writing `(30 + c, 40 + c)` at step `c` over `{10,11,12}`
and `{20,21,22}` and reading the view again gives `(30,40)`, `(31,41)`,
`(32,42)`. -/
theorem C8_written_tuples_are_read_back_witness :
    ∃ z1, forLoop (writeBody written) 4 (ZipBase.ctor vec_arr 0)
        (ZipBase.ctor vec_arr 0).begin 0 = some (z1, 3) ∧
      forLoop readBody 4 z1 z1.begin [] =
        some (z1, (List.range 3).map (fun k i => some (written k i))) :=
  C8_written_tuples_are_read_back (ZipBase.ctor vec_arr 0) 3 (by decide) written 4 (by decide)

/-! ### Decrement, equality, emptiness, capacity -/

theorem preDec_fst_pos {N : Nat} (c : IteratorTuple N) (j : Fin N) :
    (IteratorTuple.preDec c).1._iter_pos j = ⟨(c._iter_pos j).pos - 1⟩ := by
  simp [IteratorTuple.preDec, iter_impl_apply, Iterator.dec]

/-- C11: prefix decrement undoes prefix increment: the cursor left by `++c`
followed by `--c`, which is also the value `--(++c)` returns, is the original
cursor and compares equal to it; in the fixture the cursor one step after
`begin()`, decremented once, equals the cursor at `begin()`. -/
theorem C11_prefix_decrement_undoes_increment {N : Nat} (c : IteratorTuple N) :
    (IteratorTuple.preDec (IteratorTuple.preInc c).2).2 = c ∧
      (IteratorTuple.preDec (IteratorTuple.preInc c).2).1 = c ∧
      IteratorTuple.eq (IteratorTuple.preDec (IteratorTuple.preInc c).2).2 c = true ∧
      IteratorTuple.eq iter_vec_arr (IteratorTuple.preDec iter_vec_arr_inc).2 = true := by
  have h : (IteratorTuple.preDec (IteratorTuple.preInc c).2).2 = c := by
    ext1
    funext j
    show (IteratorTuple.preDec (IteratorTuple.preInc c).1).1._iter_pos j = c._iter_pos j
    rw [preDec_fst_pos, preInc_fst_pos]
    simp
  refine ⟨h, h, ?_, by decide⟩
  rw [h]
  simp [IteratorTuple.eq, tuple_eq_iff]

theorem eq_self_true {N : Nat} (a : IteratorTuple N) : IteratorTuple.eq a a = true := by
  simp [IteratorTuple.eq, tuple_eq_iff]

theorem eq_preInc_false {N : Nat} (hN : 0 < N) (a : IteratorTuple N) :
    IteratorTuple.eq (IteratorTuple.preInc a).1 a = false ∧
      IteratorTuple.eq a (IteratorTuple.preInc a).1 = false := by
  have h0 := preInc_fst_pos a ⟨0, hN⟩
  constructor
  · rw [← Bool.not_eq_true]
    intro h
    have h1 := (tuple_eq_iff _ _).mp h ⟨0, hN⟩
    rw [h0] at h1
    have h2 := congrArg Iterator.pos h1
    simp at h2
  · rw [← Bool.not_eq_true]
    intro h
    have h1 := (tuple_eq_iff _ _).mp h ⟨0, hN⟩
    rw [h0] at h1
    have h2 := congrArg Iterator.pos h1
    simp at h2

/-- C12: two cursors of arity `N >= 1` built separately by `makeIteratorTuple`
from the same component iterators compare equal, and once either of them has
been incremented they compare unequal. -/
theorem C12_same_iterators_equal_until_advanced {N : Nat} (hN : 0 < N)
    (iter : Fin N → Iterator) :
    IteratorTuple.eq (makeIteratorTuple iter) (makeIteratorTuple iter) = true ∧
      IteratorTuple.eq (IteratorTuple.preInc (makeIteratorTuple iter)).1
        (makeIteratorTuple iter) = false ∧
      IteratorTuple.eq (makeIteratorTuple iter)
        (IteratorTuple.preInc (makeIteratorTuple iter)).1 = false :=
  ⟨eq_self_true _, (eq_preInc_false hN _).1, (eq_preInc_false hN _).2⟩

/-- C12 at the fixture: two cursors built from `begin()` of `{10,11,12}` and
`{20,21,22}`. -/
theorem C12_same_iterators_equal_until_advanced_witness :
    IteratorTuple.eq (makeIteratorTuple (fun i => (vec_arr i).begin))
        (makeIteratorTuple (fun i => (vec_arr i).begin)) = true ∧
      IteratorTuple.eq
        (IteratorTuple.preInc (makeIteratorTuple (fun i => (vec_arr i).begin))).1
        (makeIteratorTuple (fun i => (vec_arr i).begin)) = false ∧
      IteratorTuple.eq (makeIteratorTuple (fun i => (vec_arr i).begin))
        (IteratorTuple.preInc (makeIteratorTuple (fun i => (vec_arr i).begin))).1 = false :=
  C12_same_iterators_equal_until_advanced (by decide) (fun i => (vec_arr i).begin)

theorem empty_eq_ite {n : Nat} {α : Fin (n + 1) → Type} (Arg : Fin (n + 1) → ContainerType)
    (z : ZipBase n α) :
    z.empty Arg =
      if ∀ i, (Arg i).const_iterator_is_iterator = true then
        some (IteratorTuple.eq (create_iterator_from_tuple z._container (fun x => x.cbegin))
          (create_iterator_from_tuple z._container (fun x => x.cend)))
      else none := by
  unfold ZipBase.empty ZipBase.cbegin ZipBase.cend create_const_iterator_from_tuple
  split_ifs <;> rfl

theorem not_all_const_iterator_is_iterator {N : Nat} (Arg : Fin N → ContainerType) :
    (¬ ∀ i, (Arg i).const_iterator_is_iterator = true) ↔
      ∃ i, (Arg i).const_iterator_is_iterator = false := by
  simp

/-- C13: `cbegin()`, `cend()` and with them `empty()` can be instantiated only
for a view whose wrapped types all have `const_iterator` equal to `iterator`.
For every other view they are ill-formed and `empty()` reports nothing: so it
is for the view over `std::vector<int>` and `std::array<int, 3>` of the tests
and for a view over two empty vectors, where `true` is expected.  Over two
empty `std::set<int>` the value is that of `cbegin() == cend()`, `true`,
whatever `_length` holds. -/
theorem C13_empty_ill_formed_unless_const_iterator_is_iterator {n : Nat}
    {α : Fin (n + 1) → Type} (Arg : Fin (n + 1) → ContainerType) (z : ZipBase n α) :
    (z.cbegin Arg = none ↔ ∃ i, (Arg i).const_iterator_is_iterator = false) ∧
      (z.cend Arg = none ↔ ∃ i, (Arg i).const_iterator_is_iterator = false) ∧
      (z.empty Arg = none ↔ ∃ i, (Arg i).const_iterator_is_iterator = false) ∧
      (ZipBase.ctor vec_arr 7).empty vector_array = none ∧
      (ZipBase.ctor empty_vectors 7).empty vector_vector = none ∧
      (ZipBase.ctor empty_pair 7).empty set_set = some true ∧
      (ZipBase.ctor empty_pair 7).size = 7 := by
  refine ⟨?_, ?_, ?_, by decide, by decide, by decide, rfl⟩
  · rw [← not_all_const_iterator_is_iterator]
    unfold ZipBase.cbegin create_const_iterator_from_tuple
    split_ifs with h <;> simp [h]
  · rw [← not_all_const_iterator_is_iterator]
    unfold ZipBase.cend create_const_iterator_from_tuple
    split_ifs with h <;> simp [h]
  · rw [← not_all_const_iterator_is_iterator, empty_eq_ite]
    split_ifs with h <;> simp [h]

theorem calc_max_length_le_head (head : Nat) (tail : List Nat) :
    calc_max_length head tail ≤ head := by
  cases tail with
  | nil => simp [calc_max_length]
  | cons t ts =>
    simp only [calc_max_length]
    split <;> omega

theorem calc_max_length_le_tail (head : Nat) (tail : List Nat) :
    ∀ x ∈ tail, calc_max_length head tail ≤ x := by
  induction tail generalizing head with
  | nil => simp
  | cons t ts ih =>
    intro x hx
    have ht := calc_max_length_le_head t ts
    simp only [calc_max_length]
    rcases List.mem_cons.mp hx with rfl | hx
    · split <;> omega
    · have := ih t x hx
      split <;> omega

theorem calc_max_length_mem (head : Nat) (tail : List Nat) :
    calc_max_length head tail ∈ head :: tail := by
  induction tail generalizing head with
  | nil => simp [calc_max_length]
  | cons t ts ih =>
    simp only [calc_max_length]
    split
    · simp
    · exact List.mem_cons_of_mem _ (ih t)

/-- C14: for a view built from `n + 1` containers, `max_size()` is the minimum
of the containers' `max_size()`: it is at most each of them and equal to one of
them. -/
theorem C14_max_size_is_minimum {n : Nat} {α : Fin (n + 1) → Type}
    (cs : Containers α) (u : Nat) :
    (∀ i, (ZipBase.ctor cs u).max_size ≤ (cs i).max_size) ∧
      ∃ i, (ZipBase.ctor cs u).max_size = (cs i).max_size := by
  constructor
  · intro i
    refine Fin.cases ?_ (fun j => ?_) i
    · exact calc_max_length_le_head _ _
    · apply calc_max_length_le_tail
      simp only [List.mem_ofFn]
      exact ⟨j, rfl⟩
  · have h := calc_max_length_mem (cs 0).max_size
      (List.ofFn (fun i : Fin n => (cs i.succ).max_size))
    rcases List.mem_cons.mp h with h | h
    · exact ⟨0, h⟩
    · simp only [List.mem_ofFn] at h
      obtain ⟨j, hj⟩ := h
      exact ⟨j.succ, hj.symm⟩

/-- C15: two views compare equal with `==` exactly when, for every index, the
two wrapped containers at that index compare equal with their own `==`, that
is, have the same contents; the members `_length` and `_max_length` and the
identity of the containers play no part. -/
theorem C15_view_equality_is_content_equality {n : Nat} {α : Fin (n + 1) → Type}
    [∀ i, DecidableEq (α i)] (z1 z2 : ZipBase n α) :
    (ZipBase.eq z1 z2 = true ↔
        ∀ i, Container.eq (z1._container i) (z2._container i) = true) ∧
      (ZipBase.eq z1 z2 = true ↔ ∀ i, (z1._container i).elems = (z2._container i).elems) := by
  constructor <;> simp [ZipBase.eq, tuple_eq_with, Container.eq]

/-! ### `emplace` and `select_return_iter` -/

/-- C16: every call of `select_return_iter` that the body of `emplace` makes has
the whole tuple `_container` as its container, a type for which no overload
of `select_return_iter` can be selected: whatever the number of arguments, no
call resolves, and `emplace` never reaches an individual container. -/
theorem C16_emplace_calls_do_not_resolve (nargs : Nat) :
    ZipBase.emplace nargs = List.replicate nargs Resolution.ill_formed ∧
      ZipBase.emplace 2 = [Resolution.ill_formed, Resolution.ill_formed] :=
  ⟨rfl, rfl⟩

/-- C17: the overload of `select_return_iter` for containers with `emplace_back`
returns `end()` of the grown container, one position after the appended
element: a cursor assembled from the positions it returns for every container
cannot be dereferenced; for `{10,11,12}` and the argument `13` the returned
position is offset `4` of a container of size `4`. -/
theorem C17_append_overload_position_not_dereferenceable {n : Nat}
    {α : Fin (n + 1) → Type} (cs : Containers α) (args : (i : Fin (n + 1)) → α i) :
    (makeIteratorTuple (fun i => (select_return_iter_emplace_back (cs i) (args i)).2)).deref
        (fun i => (select_return_iter_emplace_back (cs i) (args i)).1) = none ∧
      (select_return_iter_emplace_back vec 13).2 = ⟨4⟩ ∧
      (select_return_iter_emplace_back vec 13).1.size = 4 ∧
      (select_return_iter_emplace_back vec 13).1.deref
        (select_return_iter_emplace_back vec 13).2 = none := by
  refine ⟨?_, rfl, rfl, rfl⟩
  unfold IteratorTuple.deref make_deref_impl
  rw [dif_neg]
  intro h
  have h0 := h 0
  simp [makeIteratorTuple, select_return_iter_emplace_back, Container.deref, Container.end_,
    Container.size] at h0

theorem resolve_one_ne_emplace_back (C : CppType) :
    resolve C 1 ≠ Resolution.selected Overload.emplace_back := by
  obtain ⟨a, b, c⟩ := C
  cases a <;> cases b <;> cases c <;> decide

/-- C18: a call `select_return_iter(c, x)` with one argument never runs the
overload that appends, whatever the type of `c`.  On a sequence container
(`emplace_back(x)` valid, `emplace(x)` not) the call is ill-formed, so nothing
is appended and no position is returned: substituting into the second overload
instantiates `has_pair_return`, which names the invalid expression
`c.emplace(x)`.  The overload that appends is chosen for two arguments, and
its body then leaves the old contents followed by the new element and returns
`end()` of the grown container, one position after that element. -/
theorem C18_one_argument_call_does_not_append {α : Type} (c : Container α) (x : α) :
    (∀ C : CppType, select_return_iter C 1 c x = none) ∧
      resolve CppType.sequence 1 = Resolution.ill_formed ∧
      has_pair_return CppType.sequence = none ∧
      Overload.emplace_back.substitute CppType.sequence = Substitution.viable ∧
      select_return_iter CppType.sequence 2 c x =
        some ({ c with elems := c.elems ++ [x] }, ⟨c.size + 1⟩) ∧
      select_return_iter CppType.sequence 1 vec 13 = none ∧
      select_return_iter CppType.sequence 2 vec 13 =
        some (⟨[10, 11, 12, 13], 2305843009213693951⟩, ⟨4⟩) := by
  refine ⟨?_, by decide, by decide, by decide, ?_, by decide, by decide⟩
  · intro C
    have h := resolve_one_ne_emplace_back C
    unfold select_return_iter
    split
    · next heq => exact absurd heq h
    · rfl
  · have h : resolve CppType.sequence 2 = Resolution.selected Overload.emplace_back := by
      decide
    simp [select_return_iter, h, select_return_iter_emplace_back, Container.emplace_back,
      Container.end_, Container.size]

/-- C19: for a call `select_return_iter(c, arg)` with one argument, whatever the
type of `c`, neither the `emplace_back` overload nor the pair overload is
ever the one selected: on a sequence container the call is ill-formed, on a
container whose `emplace` returns `std::pair<iterator, bool>` it is ambiguous
between the pair overload and the plain positional one, and only a container
whose `emplace` returns an iterator resolves, to the positional overload.  The
`emplace_back` overload is selected only for other numbers of arguments. -/
theorem C19_one_argument_dispatch_selects_neither_append_nor_pair :
    (∀ C : CppType, resolve C 1 ≠ Resolution.selected Overload.emplace_back ∧
        resolve C 1 ≠ Resolution.selected Overload.pair_return) ∧
      resolve CppType.sequence 1 = Resolution.ill_formed ∧
      resolve CppType.unique_associative 1 = Resolution.ambiguous ∧
      resolve CppType.multi_associative 1 = Resolution.selected Overload.iterator_return ∧
      resolve CppType.sequence 2 = Resolution.selected Overload.emplace_back := by
  refine ⟨?_, by decide, by decide, by decide, by decide⟩
  rintro ⟨a, b, c⟩
  cases a <;> cases b <;> cases c <;> decide

/-- C20: for every index `k`, the call of `select_return_iter` that the body of
`emplace` makes for argument `k` selects no overload: no insertion into
container `k` is attempted, so none can fail after containers `0..k-1` have
received their element. -/
theorem C20_emplace_attempts_no_insertion (nargs k : Nat) (o : Overload) :
    (ZipBase.emplace nargs)[k]? ≠ some (Resolution.selected o) := by
  intro h
  have hm : Resolution.selected o ∈ ZipBase.emplace nargs := List.getElem?_mem h
  have he : Resolution.selected o = resolve CppType.tuple_of_references 1 :=
    List.eq_of_mem_replicate hm
  have hr : resolve CppType.tuple_of_references 1 = Resolution.ill_formed := rfl
  rw [hr] at he
  exact Resolution.noConfusion he

/-! ### Frame of the non-writing operations, `container_size` -/

theorem forLoop_frame {n : Nat} {α : Fin (n + 1) → Type} {σ : Type}
    (body : ZipBase n α → IteratorTuple (n + 1) → σ → Option (ZipBase n α × σ))
    (hbody : ∀ z it s z1 s1, body z it s = some (z1, s1) → z1._container = z._container) :
    ∀ (fuel : Nat) (z : ZipBase n α) (it : IteratorTuple (n + 1)) (s : σ)
      (z2 : ZipBase n α) (s2 : σ),
      forLoop body fuel z it s = some (z2, s2) → z2._container = z._container := by
  intro fuel
  induction fuel with
  | zero =>
    intro z it s z2 s2 h
    simp [forLoop] at h
  | succ f ih =>
    intro z it s z2 s2 h
    simp only [forLoop] at h
    split at h
    · cases hb : body z it s with
      | none => simp [hb] at h
      | some r =>
        obtain ⟨z1, s1⟩ := r
        simp only [hb] at h
        rw [ih z1 _ s1 z2 s2 h]
        exact hbody z it s z1 s1 hb
    · simp only [Option.some.injEq, Prod.mk.injEq] at h
      rw [← h.1]

theorem readBody_frame {n : Nat} {α : Fin (n + 1) → Type} (z : ZipBase n α)
    (it : IteratorTuple (n + 1)) (s : List ((i : Fin (n + 1)) → Option (α i)))
    (z1 : ZipBase n α) (s1 : List ((i : Fin (n + 1)) → Option (α i)))
    (h : readBody z it s = some (z1, s1)) : z1._container = z._container := by
  unfold readBody at h
  split at h
  · simp at h
  · simp only [Option.some.injEq, Prod.mk.injEq] at h
    rw [← h.1]

/-- C21: construction stores the containers as they are, and a traversal
`for (it = start; it != end(); ++it)` whose body does not write leaves every
wrapped container as it was (contents and length): the operations the loop
itself uses, `end()`, `!=` and `++`, change no container.  The remaining
operations (`begin`, `cbegin`, `cend`, `size`, `max_size`, `empty`, `==`, `!=`
and the cursor operations) return a value computed from the view and nothing
else. -/
theorem C21_non_writing_operations_keep_containers {n : Nat} {α : Fin (n + 1) → Type}
    {σ : Type} (cs : Containers α) (u : Nat)
    (body : ZipBase n α → IteratorTuple (n + 1) → σ → Option (ZipBase n α × σ))
    (hbody : ∀ z it s z1 s1, body z it s = some (z1, s1) → z1._container = z._container)
    (fuel : Nat) (it : IteratorTuple (n + 1)) (s : σ) (z2 : ZipBase n α) (s2 : σ)
    (hrun : forLoop body fuel (ZipBase.ctor cs u) it s = some (z2, s2)) :
    (ZipBase.ctor cs u)._container = cs ∧
      z2._container = cs ∧
      ∀ i, (z2._container i).elems = (cs i).elems ∧ (z2._container i).size = (cs i).size := by
  have h := forLoop_frame body hbody fuel (ZipBase.ctor cs u) it s z2 s2 hrun
  have hc : (ZipBase.ctor cs u)._container = cs := rfl
  rw [hc] at h
  refine ⟨rfl, h, fun i => ?_⟩
  rw [h]
  exact ⟨rfl, rfl⟩

/-- C21 at the fixture: the reading loop over `{10,11,12}` and `{20,21,22}`. -/
theorem C21_non_writing_operations_keep_containers_witness :
    forLoop readBody 4 (ZipBase.ctor vec_arr 0) (ZipBase.ctor vec_arr 0).begin [] =
        some (ZipBase.ctor vec_arr 0,
          [] ++ (List.range' 0 3).map
            (fun j i => ((ZipBase.ctor vec_arr 0)._container i).elems[j]?)) ∧
      (ZipBase.ctor vec_arr 0)._container = vec_arr ∧
      (ZipBase.ctor vec_arr 0)._container = vec_arr ∧
      ∀ i, ((ZipBase.ctor vec_arr 0)._container i).elems = (vec_arr i).elems ∧
        ((ZipBase.ctor vec_arr 0)._container i).size = (vec_arr i).size :=
  ⟨read_loop (ZipBase.ctor vec_arr 0) 3 0 [] 4 (by decide) (by decide),
    C21_non_writing_operations_keep_containers vec_arr 0 readBody readBody_frame 4 _ [] _ _
      (read_loop (ZipBase.ctor vec_arr 0) 3 0 [] 4 (by decide) (by decide))⟩

theorem container_size_snd_le_head (s head : Nat) (tail : List Nat) :
    (container_size s head tail).2 ≤ head := by
  cases tail with
  | nil => simp [container_size]
  | cons t ts =>
    simp only [container_size]
    split
    · simp only []
      split <;> omega
    · simp only []
      omega

theorem container_size_snd_le_tail (s head : Nat) (tail : List Nat) :
    ∀ x ∈ tail, (container_size s head tail).2 ≤ x := by
  induction tail generalizing head with
  | nil => simp
  | cons t ts ih =>
    intro x hx
    have ht := container_size_snd_le_head s t ts
    have hx1 : (container_size s t ts).2 ≤ x := by
      rcases List.mem_cons.mp hx with rfl | hx
      · exact ht
      · exact ih t x hx
    simp only [container_size]
    split
    · simp only []
      split <;> omega
    · simp only []
      omega

theorem container_size_snd_mem (s head : Nat) (tail : List Nat) :
    (container_size s head tail).2 ∈ head :: tail := by
  induction tail generalizing head with
  | nil => simp [container_size]
  | cons t ts ih =>
    simp only [container_size]
    split
    · simp only []
      split
      · simp
      · exact List.mem_cons_of_mem _ (ih t)
    · exact List.mem_cons_of_mem _ (ih t)

theorem container_size_fst_iff (s head : Nat) (tail : List Nat) :
    (container_size s head tail).1 = true ↔ ∀ x ∈ tail, x = head := by
  induction tail generalizing head with
  | nil => simp [container_size]
  | cons t ts ih =>
    have hmem := container_size_snd_mem s t ts
    simp only [container_size]
    split
    · rename_i hne
      simp only [Bool.false_eq_true, false_iff]
      intro hall
      apply hne
      exact (hall _ hmem).symm
    · rename_i heq
      have heq1 : head = (container_size s t ts).2 := by
        by_contra hc
        exact heq hc
      simp only []
      rw [ih t]
      constructor
      · intro hts x hx
        have ht : (container_size s t ts).2 = t := by
          rcases List.mem_cons.mp hmem with h | h
          · exact h
          · exact hts _ h
        rcases List.mem_cons.mp hx with rfl | hx
        · omega
        · rw [hts x hx]
          omega
      · intro hall x hx
        rw [hall x (List.mem_cons_of_mem _ hx), hall t (List.mem_cons_self _ _)]

/-- C22: for `n + 1` containers, `container_size(size, c_0, ..., c_n)` returns
`true` exactly when all the containers have the same `size()`, whatever the
output parameter held before. -/
theorem C22_container_size_true_iff_equal_sizes {n : Nat} {α : Fin (n + 1) → Type}
    (cs : Containers α) (size : Nat) :
    (container_size size (cs 0).size (List.ofFn (fun i : Fin n => (cs i.succ).size))).1 = true
      ↔ ∀ i j, (cs i).size = (cs j).size := by
  rw [container_size_fst_iff]
  simp only [List.mem_ofFn]
  constructor
  · intro h
    have h0 : ∀ i, (cs i).size = (cs 0).size := by
      intro i
      refine Fin.cases rfl (fun k => ?_) i
      exact h _ ⟨k, rfl⟩
    intro i j
    rw [h0 i, h0 j]
  · rintro h x ⟨k, rfl⟩
    exact h _ _

/-- C23: after `container_size(size, c_0, ..., c_n)` the output parameter holds
the minimum of the containers' `size()`: it is at most each of them and equal
to one of them, whatever the value returned and wherever the smallest
container stands. -/
theorem C23_container_size_leaves_minimum {n : Nat} {α : Fin (n + 1) → Type}
    (cs : Containers α) (size : Nat) :
    (∀ i, (container_size size (cs 0).size
        (List.ofFn (fun i : Fin n => (cs i.succ).size))).2 ≤ (cs i).size) ∧
      ∃ i, (container_size size (cs 0).size
        (List.ofFn (fun i : Fin n => (cs i.succ).size))).2 = (cs i).size := by
  constructor
  · intro i
    refine Fin.cases ?_ (fun k => ?_) i
    · exact container_size_snd_le_head _ _ _
    · apply container_size_snd_le_tail
      simp only [List.mem_ofFn]
      exact ⟨k, rfl⟩
  · have h := container_size_snd_mem size (cs 0).size
      (List.ofFn (fun i : Fin n => (cs i.succ).size))
    rcases List.mem_cons.mp h with h | h
    · exact ⟨0, h⟩
    · simp only [List.mem_ofFn] at h
      obtain ⟨k, hk⟩ := h
      exact ⟨k.succ, hk.symm⟩


/-! ### `index_sort` -/

theorem strict_weak_ordering_iff {β : Type} (comp : β → β → Bool) (l : List β) :
    strict_weak_ordering comp l = true ↔
      (∀ x ∈ l, comp x x = false) ∧
      (∀ x ∈ l, ∀ y ∈ l, ∀ z ∈ l, comp x y = true → comp y z = true → comp x z = true) ∧
      (∀ x ∈ l, ∀ y ∈ l, ∀ z ∈ l, comp x y = false → comp y x = false →
        comp y z = false → comp z y = false → comp x z = false ∧ comp z x = false) := by
  simp only [strict_weak_ordering, Bool.and_eq_true, List.all_eq_true, Bool.not_eq_true',
    Bool.or_eq_true, Bool.and_eq_false_imp]
  constructor
  · rintro ⟨⟨h1, h2⟩, h3⟩
    refine ⟨h1, ?_, ?_⟩
    · intro x hx y hy z hz hxy hyz
      rcases h2 x hx y hy z hz with h | h
      · exact absurd hyz (by rw [h hxy]; simp)
      · exact h
    · intro x hx y hy z hz a1 a2 a3 a4
      rcases h3 x hx y hy z hz with h | h
      · exact absurd (h ⟨a1, a2⟩ a3) (by rw [a4]; simp)
      · exact h
  · rintro ⟨h1, h2, h3⟩
    refine ⟨⟨h1, ?_⟩, ?_⟩
    · intro x hx y hy z hz
      cases hxy : comp x y
      · left
        intro h
        exact absurd h (by simp)
      · cases hyz : comp y z
        · left
          intro _
          rfl
        · right
          exact h2 x hx y hy z hz hxy hyz
    · intro x hx y hy z hz
      by_cases hc : comp x y = false ∧ comp y x = false ∧ comp y z = false ∧ comp z y = false
      · right
        exact h3 x hx y hy z hz hc.1 hc.2.1 hc.2.2.1 hc.2.2.2
      · left
        rintro ⟨a1, a2⟩ a3
        by_contra a4
        exact hc ⟨a1, a2, a3, by simpa using a4⟩

theorem index_comp_eq {α : Type} (a : List α) (comp : α → α → Bool) (i j : Nat)
    (hi : i < a.length) (hj : j < a.length) :
    index_comp a comp i j = comp a[i] a[j] := by
  simp [index_comp, List.getElem?_eq_getElem hi, List.getElem?_eq_getElem hj]

theorem strict_weak_ordering_index {α : Type} (a : List α) (comp : α → α → Bool)
    (h : strict_weak_ordering comp a = true) :
    strict_weak_ordering (index_comp a comp) (List.range a.length) = true := by
  rw [strict_weak_ordering_iff] at h ⊢
  obtain ⟨h1, h2, h3⟩ := h
  simp only [List.mem_range]
  refine ⟨?_, ?_, ?_⟩
  · intro x hx
    rw [index_comp_eq a comp x x hx hx]
    exact h1 _ (List.getElem_mem _)
  · intro x hx y hy z hz
    rw [index_comp_eq a comp x y hx hy, index_comp_eq a comp y z hy hz,
      index_comp_eq a comp x z hx hz]
    exact h2 _ (List.getElem_mem _) _ (List.getElem_mem _) _ (List.getElem_mem _)
  · intro x hx y hy z hz
    rw [index_comp_eq a comp x y hx hy, index_comp_eq a comp y z hy hz,
      index_comp_eq a comp x z hx hz, index_comp_eq a comp y x hy hx,
      index_comp_eq a comp z y hz hy, index_comp_eq a comp z x hz hx]
    exact h3 _ (List.getElem_mem _) _ (List.getElem_mem _) _ (List.getElem_mem _)

theorem index_sort_exists {α : Type} (a : List α) (comp : α → α → Bool)
    (h : strict_weak_ordering comp a = true) : ∃ r, index_sort a comp (some r) := by
  have hidx := strict_weak_ordering_index a comp h
  obtain ⟨h1, h2, h3⟩ := (strict_weak_ordering_iff comp a).mp h
  let rel : Fin a.length → Fin a.length → Prop := fun i j => comp a[j] a[i] = false
  haveI : DecidableRel rel := fun i j => inferInstanceAs (Decidable (comp a[j] a[i] = false))
  haveI : IsTotal (Fin a.length) rel := ⟨by
    intro i j
    show comp a[j] a[i] = false ∨ comp a[i] a[j] = false
    cases hji : comp a[j] a[i]
    · exact Or.inl rfl
    · right
      cases hij : comp a[i] a[j]
      · rfl
      · have := h2 _ (List.getElem_mem i.2) _ (List.getElem_mem j.2) _ (List.getElem_mem i.2)
          hij hji
        exact (Bool.false_ne_true ((h1 _ (List.getElem_mem i.2)).symm.trans this)).elim⟩
  haveI : IsTrans (Fin a.length) rel := ⟨by
    intro i j k hij hjk
    show comp a[k] a[i] = false
    have hij1 : comp a[j] a[i] = false := hij
    have hjk1 : comp a[k] a[j] = false := hjk
    cases hki : comp a[k] a[i]
    · rfl
    · exfalso
      cases hxy : comp a[i] a[j]
      · cases hyz : comp a[j] a[k]
        · have := (h3 _ (List.getElem_mem i.2) _ (List.getElem_mem j.2) _
            (List.getElem_mem k.2) hxy hij1 hyz hjk1).2
          exact Bool.false_ne_true (this.symm.trans hki)
        · have := h2 _ (List.getElem_mem j.2) _ (List.getElem_mem k.2) _
            (List.getElem_mem i.2) hyz hki
          exact Bool.false_ne_true (hij1.symm.trans this)
      · have := h2 _ (List.getElem_mem k.2) _ (List.getElem_mem i.2) _
          (List.getElem_mem j.2) hki hxy
        exact Bool.false_ne_true (hjk1.symm.trans this)⟩
  refine ⟨(List.insertionSort rel (List.finRange a.length)).map Fin.val, hidx, ?_, ?_⟩
  · rw [← List.map_coe_finRange]
    exact (List.perm_insertionSort rel _).map _
  · rw [List.pairwise_map]
    refine (List.sorted_insertionSort rel (List.finRange a.length)).imp ?_
    intro i j hij
    rw [index_comp_eq a comp j i j.2 i.2]
    exact hij

theorem index_sort_outcome {α : Type} (a : List α) (comp : α → α → Bool)
    (h : strict_weak_ordering comp a = true) (outcome : Option (List Nat))
    (ho : index_sort a comp outcome) :
    ∃ r, outcome = some r ∧ r.Perm (List.range a.length) ∧
      r.Pairwise (fun x y => index_comp a comp y x = false) := by
  have hidx := strict_weak_ordering_index a comp h
  cases outcome with
  | none =>
    have hn : strict_weak_ordering (index_comp a comp) (List.range a.length) = false := ho
    rw [hidx] at hn
    exact absurd hn (by simp)
  | some r => exact ⟨r, rfl, ho.2.1, ho.2.2⟩

theorem index_comp_of_some {α : Type} (a : List α) (comp : α → α → Bool) (i j : Nat)
    (x y : α) (hx : a[i]? = some x) (hy : a[j]? = some y) :
    index_comp a comp i j = comp x y := by
  simp [index_comp, hx, hy]

theorem index_sort_sorted_at {α : Type} (a : List α) (comp : α → α → Bool) (r : List Nat)
    (hperm : r.Perm (List.range a.length))
    (hpw : r.Pairwise (fun x y => index_comp a comp y x = false))
    (i j ri rj : Nat) (hij : i < j) (hi : r[i]? = some ri) (hj : r[j]? = some rj) :
    ∃ x y, a[ri]? = some x ∧ a[rj]? = some y ∧ comp y x = false := by
  obtain ⟨hi1, hi2⟩ := List.getElem?_eq_some_iff.mp hi
  obtain ⟨hj1, hj2⟩ := List.getElem?_eq_some_iff.mp hj
  have hri : ri < a.length := by
    have : ri ∈ r := hi2 ▸ List.getElem_mem hi1
    exact List.mem_range.mp (hperm.mem_iff.mp this)
  have hrj : rj < a.length := by
    have : rj ∈ r := hj2 ▸ List.getElem_mem hj1
    exact List.mem_range.mp (hperm.mem_iff.mp this)
  refine ⟨a[ri], a[rj], List.getElem?_eq_getElem hri, List.getElem?_eq_getElem hrj, ?_⟩
  have h := List.pairwise_iff_getElem.mp hpw i j hi1 hj1 hij
  rw [hi2, hj2, index_comp_eq a comp rj ri hrj hri] at h
  exact h

theorem index_sort_strict_before {α : Type} (a : List α) (comp : α → α → Bool)
    (hswo : strict_weak_ordering comp a = true) (r : List Nat)
    (hperm : r.Perm (List.range a.length))
    (hpw : r.Pairwise (fun x y => index_comp a comp y x = false))
    (i j : Nat) (x y : α) (hx : a[i]? = some x) (hy : a[j]? = some y)
    (hlt : comp x y = true) :
    r.indexOf i < r.indexOf j ∧ r.indexOf j < r.length := by
  obtain ⟨h1, _, _⟩ := (strict_weak_ordering_iff comp a).mp hswo
  obtain ⟨hi1, hi2⟩ := List.getElem?_eq_some_iff.mp hx
  obtain ⟨hj1, hj2⟩ := List.getElem?_eq_some_iff.mp hy
  have hir : i ∈ r := hperm.mem_iff.mpr (List.mem_range.mpr hi1)
  have hjr : j ∈ r := hperm.mem_iff.mpr (List.mem_range.mpr hj1)
  have hpi : r.indexOf i < r.length := List.indexOf_lt_length.mpr hir
  have hpj : r.indexOf j < r.length := List.indexOf_lt_length.mpr hjr
  have hgi : r[r.indexOf i] = i := List.getElem_indexOf hpi
  have hgj : r[r.indexOf j] = j := List.getElem_indexOf hpj
  refine ⟨?_, hpj⟩
  by_contra hnot
  rcases Nat.lt_or_ge (r.indexOf j) (r.indexOf i) with hlt1 | hge
  · have h := List.pairwise_iff_getElem.mp hpw _ _ hpj hpi hlt1
    rw [hgi, hgj, index_comp_of_some a comp i j x y hx hy, hlt] at h
    exact Bool.noConfusion h
  · have heq : r.indexOf i = r.indexOf j := by omega
    have hij : i = j := by
      have h2 : r[r.indexOf i] = r[r.indexOf j] := by simp only [heq]
      rw [hgi, hgj] at h2
      exact h2
    subst hij
    rw [hx] at hy
    cases hy
    have hxm : x ∈ a := hi2 ▸ List.getElem_mem hi1
    rw [h1 x hxm] at hlt
    exact Bool.noConfusion hlt

/-- C24: for a comparator that is a strict weak ordering on the elements of the
range, `index_sort` returns a vector `r`, and every vector it may return lists
the elements in sorted order: for positions `i < j`,
`comp(begin[r[j]], begin[r[i]])` is false. -/
theorem C24_index_sort_lists_sorted_order {α : Type} (a : List α) (comp : α → α → Bool)
    (hswo : strict_weak_ordering comp a = true) :
    (∃ r, index_sort a comp (some r)) ∧
      ∀ outcome, index_sort a comp outcome → ∃ r, outcome = some r ∧
        ∀ i j ri rj : Nat, i < j → r[i]? = some ri → r[j]? = some rj →
          ∃ x y, a[ri]? = some x ∧ a[rj]? = some y ∧ comp y x = false := by
  refine ⟨index_sort_exists a comp hswo, fun outcome ho => ?_⟩
  obtain ⟨r, rfl, hperm, hpw⟩ := index_sort_outcome a comp hswo outcome ho
  exact ⟨r, rfl, fun i j ri rj hij hi hj =>
    index_sort_sorted_at a comp r hperm hpw i j ri rj hij hi hj⟩

/-- C25 as stated fails for a comparator that is not a strict weak ordering: on
a range of 17 elements with the comparator that always answers `true` the call
of `std::sort` is undefined, and no vector is a defined result of
`index_sort`. -/
theorem C25_undefined_for_comparator_always_true :
    strict_weak_ordering (fun (_ _ : Int) => true) (List.replicate 17 0) = false ∧
      index_sort (List.replicate 17 (0 : Int)) (fun _ _ => true) none ∧
      ¬ ∃ r, index_sort (List.replicate 17 (0 : Int)) (fun _ _ => true) (some r) := by
  refine ⟨by decide, by decide, ?_⟩
  rintro ⟨r, h, _⟩
  revert h
  decide

/-- C25, amended: for a comparator that is a strict weak ordering on the
elements of the range, `index_sort` returns a vector, and every vector it may
return has the length `n` of the range and is a permutation of
`0, 1, ..., n - 1`: every entry is below `n` and each index occurs exactly
once; for the empty range it is the empty vector. -/
theorem C25_index_sort_returns_permutation {α : Type} (a : List α) (comp : α → α → Bool)
    (hswo : strict_weak_ordering comp a = true) :
    (∃ r, index_sort a comp (some r)) ∧
      ∀ outcome, index_sort a comp outcome → ∃ r, outcome = some r ∧
        r.length = a.length ∧ r.Perm (List.range a.length) ∧
        (∀ k ∈ r, k < a.length) ∧ (∀ k, k < a.length → r.count k = 1) ∧
        (a = [] → r = []) := by
  refine ⟨index_sort_exists a comp hswo, fun outcome ho => ?_⟩
  obtain ⟨r, rfl, hperm, _⟩ := index_sort_outcome a comp hswo outcome ho
  refine ⟨r, rfl, ?_, hperm, ?_, ?_, ?_⟩
  · rw [hperm.length_eq, List.length_range]
  · intro k hk
    exact List.mem_range.mp (hperm.mem_iff.mp hk)
  · intro k hk
    rw [hperm.count_eq]
    exact List.count_eq_one_of_mem (List.nodup_range _) (List.mem_range.mpr hk)
  · intro ha
    subst ha
    exact List.perm_nil.mp hperm

/-- C26 as stated fails: in a range of 17 equal elements all elements are
equivalent under less-than, and the vector
`{8,16,15,14,13,12,11,10,9,0,7,6,5,4,3,2,1}` is a sorted permutation of the
indices, a result `std::sort` is allowed to leave; in it index `0` does not
come before index `8`. -/
theorem C26_equivalent_elements_may_be_reordered :
    strict_weak_ordering (fun (x y : Int) => decide (x < y)) (List.replicate 17 1) = true ∧
      index_sort_less (List.replicate 17 1)
        (some [8, 16, 15, 14, 13, 12, 11, 10, 9, 0, 7, 6, 5, 4, 3, 2, 1]) ∧
      index_comp (List.replicate 17 (1 : Int)) (fun x y => decide (x < y)) 0 8 = false ∧
      index_comp (List.replicate 17 (1 : Int)) (fun x y => decide (x < y)) 8 0 = false ∧
      ¬ (List.indexOf 0 [8, 16, 15, 14, 13, 12, 11, 10, 9, 0, 7, 6, 5, 4, 3, 2, 1] <
        List.indexOf 8 [8, 16, 15, 14, 13, 12, 11, 10, 9, 0, 7, 6, 5, 4, 3, 2, 1]) := by
  refine ⟨by decide, by decide, by decide, by decide, by decide⟩

/-- C26, amended: for a comparator that is a strict weak ordering on the
elements of the range, `index_sort` returns a vector, and in every vector it
may return, whenever `comp(a[i], a[j])` holds, index `i` comes before
index `j`.  The relative order of the indices of equivalent elements is not
fixed. -/
theorem C26_index_sort_puts_smaller_first {α : Type} (a : List α) (comp : α → α → Bool)
    (hswo : strict_weak_ordering comp a = true) :
    (∃ r, index_sort a comp (some r)) ∧
      ∀ outcome, index_sort a comp outcome → ∃ r, outcome = some r ∧
        ∀ (i j : Nat) (x y : α), a[i]? = some x → a[j]? = some y → comp x y = true →
          r.indexOf i < r.indexOf j ∧ r.indexOf j < r.length := by
  refine ⟨index_sort_exists a comp hswo, fun outcome ho => ?_⟩
  obtain ⟨r, rfl, hperm, hpw⟩ := index_sort_outcome a comp hswo outcome ho
  exact ⟨r, rfl, fun i j x y hx hy hlt =>
    index_sort_strict_before a comp hswo r hperm hpw i j x y hx hy hlt⟩

theorem index_sort_test_unique (outcome : Option (List Nat))
    (ho : index_sort_less [3, 6, 4, 1] outcome) : outcome = some [3, 0, 2, 1] := by
  have hswo : strict_weak_ordering (fun (x y : Int) => decide (x < y)) [3, 6, 4, 1] = true := by
    decide
  obtain ⟨r, rfl, hperm, hpw⟩ := index_sort_outcome _ _ hswo outcome ho
  have h30 := index_sort_strict_before _ _ hswo r hperm hpw 3 0 1 3 rfl rfl (by decide)
  have h02 := index_sort_strict_before _ _ hswo r hperm hpw 0 2 3 4 rfl rfl (by decide)
  have h21 := index_sort_strict_before _ _ hswo r hperm hpw 2 1 4 6 rfl rfl (by decide)
  have hlen : r.length = 4 := by
    rw [hperm.length_eq]
    rfl
  have p3 : r.indexOf 3 = 0 := by omega
  have p0 : r.indexOf 0 = 1 := by omega
  have p2 : r.indexOf 2 = 2 := by omega
  have p1 : r.indexOf 1 = 3 := by omega
  have g3 : r[r.indexOf 3]? = some 3 :=
    List.getElem?_eq_some_iff.mpr ⟨by omega, List.getElem_indexOf (by omega)⟩
  have g0 : r[r.indexOf 0]? = some 0 :=
    List.getElem?_eq_some_iff.mpr ⟨by omega, List.getElem_indexOf (by omega)⟩
  have g2 : r[r.indexOf 2]? = some 2 :=
    List.getElem?_eq_some_iff.mpr ⟨by omega, List.getElem_indexOf (by omega)⟩
  have g1 : r[r.indexOf 1]? = some 1 :=
    List.getElem?_eq_some_iff.mpr ⟨by omega, List.getElem_indexOf (by omega)⟩
  rw [p3] at g3
  rw [p0] at g0
  rw [p2] at g2
  rw [p1] at g1
  congr 1
  match r, hlen, g3, g0, g2, g1 with
  | [r0, r1, r2, r3], _, g3, g0, g2, g1 =>
    simp only [List.getElem?_cons_zero, List.getElem?_cons_succ, Option.some.injEq] at g3 g0 g2 g1
    rw [g3, g0, g2, g1]

/-- C24 at the test: `{3, 6, 4, 1}` with less-than gives `{3, 0, 2, 1}` and nothing
else. -/
theorem C24_index_sort_lists_sorted_order_witness :
    ((∃ r, index_sort [(3 : Int), 6, 4, 1] (fun x y => decide (x < y)) (some r)) ∧
      ∀ outcome, index_sort [(3 : Int), 6, 4, 1] (fun x y => decide (x < y)) outcome →
        ∃ r, outcome = some r ∧
          ∀ i j ri rj : Nat, i < j → r[i]? = some ri → r[j]? = some rj →
            ∃ x y, [(3 : Int), 6, 4, 1][ri]? = some x ∧ [(3 : Int), 6, 4, 1][rj]? = some y ∧
              decide (y < x) = false) ∧
      index_sort_less [3, 6, 4, 1] (some [3, 0, 2, 1]) ∧
      ∀ outcome, index_sort_less [3, 6, 4, 1] outcome → outcome = some [3, 0, 2, 1] :=
  ⟨C24_index_sort_lists_sorted_order [(3 : Int), 6, 4, 1] (fun x y => decide (x < y))
    (by decide), by decide, index_sort_test_unique⟩

/-- C25 at the test range `{3, 6, 4, 1}` with less-than, and at the empty
range. -/
theorem C25_index_sort_returns_permutation_witness :
    ((∃ r, index_sort [(3 : Int), 6, 4, 1] (fun x y => decide (x < y)) (some r)) ∧
      ∀ outcome, index_sort [(3 : Int), 6, 4, 1] (fun x y => decide (x < y)) outcome →
        ∃ r, outcome = some r ∧
          r.length = [(3 : Int), 6, 4, 1].length ∧
          r.Perm (List.range [(3 : Int), 6, 4, 1].length) ∧
          (∀ k ∈ r, k < [(3 : Int), 6, 4, 1].length) ∧
          (∀ k, k < [(3 : Int), 6, 4, 1].length → r.count k = 1) ∧
          ([(3 : Int), 6, 4, 1] = [] → r = [])) ∧
      index_sort_less [] (some []) :=
  ⟨C25_index_sort_returns_permutation [(3 : Int), 6, 4, 1] (fun x y => decide (x < y))
    (by decide), by decide⟩

/-- C26 at the test range `{3, 6, 4, 1}` with less-than. -/
theorem C26_index_sort_puts_smaller_first_witness :
    (∃ r, index_sort [(3 : Int), 6, 4, 1] (fun x y => decide (x < y)) (some r)) ∧
      ∀ outcome, index_sort [(3 : Int), 6, 4, 1] (fun x y => decide (x < y)) outcome →
        ∃ r, outcome = some r ∧
          ∀ (i j : Nat) (x y : Int), [(3 : Int), 6, 4, 1][i]? = some x →
            [(3 : Int), 6, 4, 1][j]? = some y → decide (x < y) = true →
            r.indexOf i < r.indexOf j ∧ r.indexOf j < r.length :=
  C26_index_sort_puts_smaller_first [(3 : Int), 6, 4, 1] (fun x y => decide (x < y))
    (by decide)

/-! ### Tuple functions -/

theorem foldl_update_dep_apply {n : Nat} {τ : Fin n → Type} (f : (i : Fin n) → τ i → τ i)
    (l : List (Fin n)) (hl : l.Nodup) (t : (i : Fin n) → τ i) (j : Fin n) :
    l.foldl (fun t i => Function.update t i (f i (t i))) t j =
      if j ∈ l then f j (t j) else t j := by
  induction l generalizing t with
  | nil => simp
  | cons a l ih =>
    rw [List.nodup_cons] at hl
    rw [List.foldl_cons, ih hl.2]
    by_cases hj : j ∈ l
    · have hne : j ≠ a := fun h => hl.1 (h ▸ hj)
      simp [hj, Function.update_noteq hne]
    · by_cases hja : j = a
      · subst hja
        simp [hj]
      · simp [hj, hja, Function.update_noteq hja]

/-- C27: after `for_each_tuple(t, f)` element `i` of the tuple is the result of
`f` on the old element `i`, for every index `i`: `f` has been applied once to
each element.  In the test, adding 100 to each element of
`(1, TestTupleClass(2))` gives `101` and `102`. -/
theorem C27_for_each_tuple_updates_each_element {n : Nat} {τ : Fin n → Type}
    (t : (i : Fin n) → τ i) (f : (i : Fin n) → τ i → τ i) :
    (∀ i, for_each_tuple t f i = f i (t i)) ∧
      @Eq Int (for_each_tuple value_tuple add_onehundred 0) 101 ∧
      (for_each_tuple value_tuple add_onehundred 1 : TestTupleClass).value = 102 := by
  refine ⟨fun i => ?_, by decide, by decide⟩
  unfold for_each_tuple detail.for_each_tuple_impl
  rw [foldl_update_dep_apply f _ (List.nodup_finRange n)]
  simp

/-- C28: `functor_tuple(t, f)` returns a tuple of the same arity whose element
`i` is `f(get<i>(t))`, for every index `i`.  In the test, `transform` maps
`(1, TestTupleClass(2))` to `("Integer", "TestTupleClass")`. -/
theorem C28_functor_tuple_maps_each_element {n : Nat} {τ ρ : Fin n → Type}
    (t : (i : Fin n) → τ i) (f : (i : Fin n) → τ i → ρ i) :
    (∀ i, functor_tuple t f i = f i (t i)) ∧
      functor_tuple value_tuple transform 0 = "Integer" ∧
      functor_tuple value_tuple transform 1 = "TestTupleClass" :=
  ⟨fun _ => rfl, by decide, by decide⟩

theorem apply_tuple_of {n : Nat} {τ : Fin n → Type} {ρ : Type}
    (g : ((i : Fin n) → τ i) → ρ) (t : (i : Fin n) → τ i) :
    apply_tuple (Callable.of g) t = g t := by
  unfold apply_tuple
  induction n with
  | zero =>
    show g (fun i => i.elim0) = g t
    congr 1
    funext i
    exact i.elim0
  | succ n ih =>
    show detail.apply_tuple (Callable.of (fun args => g (Fin.cons (t 0) args)))
      (fun i => t i.succ) = g t
    rw [ih]
    congr 1
    exact Fin.cons_self_tail t

/-- C29: `apply_tuple(f, t)` calls `f` with the elements of `t` as arguments, in
index order: element `i` is argument `i`.  For arity two and three this is
`f(get<0>(t), get<1>(t))` and `f(get<0>(t), get<1>(t), get<2>(t))`.  Converting
`construct_from_tuple(t)` to `T` is `apply_tuple` with the constructor of `T`;
the tuple `(42, b)` constructs the `TestClass` with `_a == 42` and `_b == b`. -/
theorem C29_apply_tuple_passes_elements_in_order :
    (∀ (n : Nat) (τ : Fin n → Type) (ρ : Type) (g : ((i : Fin n) → τ i) → ρ)
        (t : (i : Fin n) → τ i), apply_tuple (Callable.of g) t = g t) ∧
      (∀ (τ : Fin 2 → Type) (ρ : Type) (f : τ 0 → τ 1 → ρ) (t : (i : Fin 2) → τ i),
        @apply_tuple 2 τ ρ f t = f (t 0) (t 1)) ∧
      (∀ (τ : Fin 3 → Type) (ρ : Type) (f : τ 0 → τ 1 → τ 2 → ρ) (t : (i : Fin 3) → τ i),
        @apply_tuple 3 τ ρ f t = f (t 0) (t 1) (t 2)) ∧
      (∀ (n : Nat) (τ : Fin n → Type) (T : Type) (ctor : Callable τ T)
        (t : (i : Fin n) → τ i),
        (construct_from_tuple t).convert ctor = apply_tuple ctor t) ∧
      apply_tuple add_to_both value_tuple = (101, 102) ∧
      (∀ (D : Type) (b : D),
        (construct_from_tuple (tuple_to_construct 42 b)).convert (TestClass_ctor D) =
          TestClass.mk 42 b) :=
  ⟨fun _ _ _ g t => apply_tuple_of g t, fun _ _ _ _ => rfl, fun _ _ _ _ => rfl,
    fun _ _ _ _ _ => rfl, by decide, fun _ _ => rfl⟩

/-- C30: `tuple_from_array(a)` returns no tuple, for any array: its template
argument `array.size()` names the function parameter `array`, a reference, and
is not a constant expression, so the call of the test on `{10, 11, 12}` is
ill-formed.  The tuple of arity `n` with `a[i]` as element `i` is what
`detail::tuple_from_array` builds once an index sequence `0, ..., n - 1` is
handed to it. -/
theorem C30_tuple_from_array_is_ill_formed {α : Type} (a : List α) :
    (tuple_from_array a).isNone = true ∧
      IndexSequenceLength.size_of_reference_parameter.is_constant_expression = false ∧
      IndexSequenceLength.tuple_size_value.is_constant_expression = true ∧
      (tuple_from_array [(10 : Int), 11, 12]).isNone = true ∧
      (∀ i : Fin a.length, detail.tuple_from_array a i = a[i]) ∧
      List.ofFn (detail.tuple_from_array a) = a ∧
      List.ofFn (detail.tuple_from_array [(10 : Int), 11, 12]) = [10, 11, 12] :=
  ⟨rfl, rfl, rfl, rfl, fun _ => rfl, List.ofFn_get a, List.ofFn_get _⟩

/-! ### Views over containers of different sizes, emptiness -/

theorem ne_end_of_unequal {n : Nat} {α : Fin (n + 1) → Type} (z : ZipBase n α)
    (hne : ∃ i j, (z._container i).size ≠ (z._container j).size) (k : Nat) :
    IteratorTuple.ne (⟨fun _ => ⟨k⟩⟩ : IteratorTuple (n + 1)) z.end_ = true := by
  simp only [IteratorTuple.ne, tuple_ne, Bool.not_eq_true', ← Bool.not_eq_true, tuple_eq_iff]
  intro h
  obtain ⟨i, j, hij⟩ := hne
  have hi := congrArg Iterator.pos (h i)
  have hj := congrArg Iterator.pos (h j)
  simp only [ZipBase.end_, create_iterator_from_tuple, Container.end_] at hi hj
  apply hij
  simp only [Container.size]
  omega

theorem increment_const {N : Nat} {α : Fin N → Type} (cs : Containers α) (j : Nat) :
    IteratorTuple.increment cs (⟨fun _ => ⟨j⟩⟩ : IteratorTuple N) =
      if ∀ i, j < (cs i).size then some ⟨fun _ => ⟨j + 1⟩⟩ else none := by
  unfold IteratorTuple.increment
  have h : (∀ i : Fin N, ((cs i).increment ⟨j⟩).isSome = true) ↔ ∀ i, j < (cs i).size := by
    refine forall_congr' (fun i => ?_)
    unfold Container.increment
    split_ifs with h <;> simp [h]
  by_cases hj : ∀ i, j < (cs i).size
  · rw [if_pos (h.mpr hj), if_pos hj, preInc_const]
  · rw [if_neg (fun hh => hj (h.mp hh)), if_neg hj]

theorem advance_in_const {N : Nat} {α : Fin N → Type} (cs : Containers α) (k : Nat) :
    ∀ j : Nat, (∀ i, j + k ≤ (cs i).size) →
      IteratorTuple.advance_in cs k (⟨fun _ => ⟨j⟩⟩ : IteratorTuple N) =
        some ⟨fun _ => ⟨j + k⟩⟩ := by
  induction k with
  | zero =>
    intro j _
    rfl
  | succ k ih =>
    intro j h
    have hj : ∀ i, j < (cs i).size := fun i => by have := h i; omega
    simp only [IteratorTuple.advance_in, increment_const, if_pos hj]
    rw [ih (j + 1) (fun i => by have := h i; omega)]
    congr 3
    funext _
    congr 1
    omega

theorem advance_in_past_end {N : Nat} {α : Fin N → Type} (cs : Containers α) (k : Nat) :
    ∀ j : Nat, (∃ i, (cs i).size < j + k) → (∀ i, j ≤ (cs i).size) →
      IteratorTuple.advance_in cs k (⟨fun _ => ⟨j⟩⟩ : IteratorTuple N) = none := by
  induction k with
  | zero =>
    intro j ⟨i, hi⟩ h
    have := h i
    omega
  | succ k ih =>
    intro j ⟨i, hi⟩ h
    simp only [IteratorTuple.advance_in, increment_const]
    by_cases hj : ∀ i, j < (cs i).size
    · rw [if_pos hj]
      exact ih (j + 1) ⟨i, by omega⟩ (fun i => hj i)
    · rw [if_neg hj]

theorem checked_loop_never_stops {n : Nat} {α : Fin (n + 1) → Type} (z : ZipBase n α)
    (hne : ∃ i j, (z._container i).size ≠ (z._container j).size) (fuel : Nat) :
    ∀ (j c : Nat) (r : ZipBase n α × Nat),
      forLoopChecked countBody fuel z ⟨fun _ => ⟨j⟩⟩ c ≠ some (Run.stopped r) := by
  induction fuel with
  | zero =>
    intro j c r h
    simp [forLoopChecked] at h
  | succ f ih =>
    intro j c r
    simp only [forLoopChecked, ne_end_of_unequal z hne j, if_true, countBody, increment_const]
    by_cases hj : ∀ i, j < (z._container i).size
    · rw [if_pos hj]
      exact ih (j + 1) (c + 1) r
    · rw [if_neg hj]
      intro h
      simp at h

theorem checked_loop_undefined {n : Nat} {α : Fin (n + 1) → Type} (z : ZipBase n α)
    (hne : ∃ i j, (z._container i).size ≠ (z._container j).size) (fuel : Nat) :
    ∀ (j c : Nat), (∃ i, (z._container i).size < j + fuel) →
      (∀ i, j ≤ (z._container i).size) →
      forLoopChecked countBody fuel z ⟨fun _ => ⟨j⟩⟩ c = some Run.undefined := by
  induction fuel with
  | zero =>
    intro j c ⟨i, hi⟩ h
    have := h i
    omega
  | succ f ih =>
    intro j c ⟨i, hi⟩ h
    simp only [forLoopChecked, ne_end_of_unequal z hne j, if_true, countBody, increment_const]
    by_cases hj : ∀ i, j < (z._container i).size
    · rw [if_pos hj]
      exact ih (j + 1) (c + 1) ⟨i, by omega⟩ (fun i => hj i)
    · rw [if_neg hj]

/-- C37, as stated, fails over a vector of three and an array of two elements:
the cursor obtained from `begin()` by two increments has its second component
at the end of the array, so the third increment is undefined and there is no
cursor after three steps to compare with `end()`. -/
theorem C37_third_increment_is_undefined :
    (¬ ∀ k, ∃ c, IteratorTuple.advance_in unequal_pair k (ZipBase.ctor unequal_pair 0).begin =
          some c ∧ IteratorTuple.ne c (ZipBase.ctor unequal_pair 0).end_ = true) ∧
      (IteratorTuple.advance_in unequal_pair 2 (ZipBase.ctor unequal_pair 0).begin).isSome =
        true ∧
      (unequal_pair 1).increment ⟨2⟩ = none ∧
      (IteratorTuple.advance_in unequal_pair 3 (ZipBase.ctor unequal_pair 0).begin).isNone =
        true := by
  have h3 : IteratorTuple.advance_in unequal_pair 3 (ZipBase.ctor unequal_pair 0).begin =
      none :=
    advance_in_past_end unequal_pair 3 0 ⟨1, by decide⟩ (fun _ => Nat.zero_le _)
  refine ⟨?_, ?_, by decide, ?_⟩
  · intro h
    obtain ⟨c, hc, _⟩ := h 3
    rw [h3] at hc
    exact Option.noConfusion hc
  · have h2 := advance_in_const unequal_pair 2 0 (fun i => by
      revert i
      decide)
    have hb : (ZipBase.ctor unequal_pair 0).begin = (⟨fun _ => ⟨0⟩⟩ : IteratorTuple 2) := rfl
    rw [hb, h2]
    rfl
  · rw [h3]
    rfl

/-- C37: over containers whose sizes are not all equal, the cursor obtained
from `begin()` by `k` increments exists and compares unequal to `end()` for
every `k` up to the size of the smallest container, so the loop
`for (it = begin(); it != end(); ++it)` does not stop at the end of the
shortest container.  Its next increment steps past that end, which is
undefined: there is no cursor after more steps than some container has
elements, the loop never stops with the loop condition false, and with enough
steps its run is undefined. -/
theorem C37_unequal_sizes_loop_steps_past_shortest_end {n : Nat} {α : Fin (n + 1) → Type}
    (z : ZipBase n α) (hne : ∃ i j, (z._container i).size ≠ (z._container j).size) :
    (∀ k, (∀ i, k ≤ (z._container i).size) →
        IteratorTuple.advance_in z._container k z.begin =
          some (IteratorTuple.advance k z.begin) ∧
        IteratorTuple.ne (IteratorTuple.advance k z.begin) z.end_ = true) ∧
      (∀ k, (∃ i, (z._container i).size < k) →
        IteratorTuple.advance_in z._container k z.begin = none) ∧
      (∀ fuel r, forLoopChecked countBody fuel z z.begin 0 ≠ some (Run.stopped r)) ∧
      (∀ fuel, (∃ i, (z._container i).size < fuel) →
        forLoopChecked countBody fuel z z.begin 0 = some Run.undefined) := by
  have hb : z.begin = (⟨fun _ => ⟨0⟩⟩ : IteratorTuple (n + 1)) := rfl
  refine ⟨?_, ?_, ?_, ?_⟩
  · intro k hk
    rw [advance_begin]
    refine ⟨?_, ne_end_of_unequal z hne k⟩
    rw [hb, advance_in_const z._container k 0 (fun i => by have := hk i; omega)]
    simp
  · intro k ⟨i, hi⟩
    rw [hb]
    exact advance_in_past_end z._container k 0 ⟨i, by omega⟩ (fun _ => Nat.zero_le _)
  · intro fuel r
    rw [hb]
    exact checked_loop_never_stops z hne fuel 0 0 r
  · intro fuel ⟨i, hi⟩
    rw [hb]
    exact checked_loop_undefined z hne fuel 0 0 ⟨i, by omega⟩ (fun _ => Nat.zero_le _)

/-- C37 at a vector of three and an array of two elements: the cursors after
zero, one and two steps exist and differ from `end()`, there is none after
three steps, and the loop run is undefined once it is given three steps. -/
theorem C37_unequal_sizes_loop_steps_past_shortest_end_witness :
    (∃ i j, ((ZipBase.ctor unequal_pair 0)._container i).size ≠
        ((ZipBase.ctor unequal_pair 0)._container j).size) ∧
      IteratorTuple.ne (IteratorTuple.advance 2 (ZipBase.ctor unequal_pair 0).begin)
        (ZipBase.ctor unequal_pair 0).end_ = true ∧
      IteratorTuple.advance_in unequal_pair 3 (ZipBase.ctor unequal_pair 0).begin = none ∧
      forLoopChecked countBody 3 (ZipBase.ctor unequal_pair 0)
        (ZipBase.ctor unequal_pair 0).begin 0 = some Run.undefined :=
  have h := C37_unequal_sizes_loop_steps_past_shortest_end (ZipBase.ctor unequal_pair 0)
    ⟨0, 1, by decide⟩
  ⟨⟨0, 1, by decide⟩, (h.1 2 (by decide)).2, h.2.1 3 ⟨1, by decide⟩,
    h.2.2.2 3 ⟨1, by decide⟩⟩

/-- C38: `empty()` has a value only for a view whose wrapped types all have
`const_iterator` equal to `iterator`; the value is then `true` exactly when
every wrapped container is empty.  For every other view `empty()` is
ill-formed: over an empty and a non-empty `std::vector<int>`, where `false` is
expected, it reports nothing.  Over an empty and a non-empty `std::set<int>`
it reports `false`, although the smallest container has size `0`. -/
theorem C38_empty_reports_nothing_over_vectors {n : Nat} {α : Fin (n + 1) → Type}
    (Arg : Fin (n + 1) → ContainerType) (z : ZipBase n α) :
    (z.empty Arg =
        if ∀ i, (Arg i).const_iterator_is_iterator = true then
          some (decide (∀ i, (z._container i).size = 0))
        else none) ∧
      (ZipBase.ctor half_empty_vectors 0).empty vector_vector = none ∧
      (half_empty_vectors 1).size = 1 ∧
      (ZipBase.ctor half_empty_pair 0).empty set_set = some false ∧
      (half_empty_pair 0).size = 0 := by
  refine ⟨?_, by decide, by decide, by decide, by decide⟩
  rw [empty_eq_ite]
  split_ifs with h
  · congr 1
    rw [Bool.eq_iff_iff, decide_eq_true_iff]
    simp only [IteratorTuple.eq, tuple_eq_iff, create_iterator_from_tuple, Container.cbegin,
      Container.cend, Container.size, Iterator.mk.injEq]
    constructor
    · intro h i
      exact (h i).symm
    · intro h i
      exact (h i).symm
  · rfl

/-! ### Type traits -/

/-- C31: `conjugation<B_1, ..., B_n>::value` is true exactly when every
`B_i::value` is true (true for no argument), and `fulfills<T, C_1, ..., C_n>`
is this conjunction over the `C_i<T>`; the tests on `bool_constant` pairs and
on `int` and `double` with `std::is_signed` and `std::is_integral` hold. -/
theorem C31_conjugation_is_conjunction (B : List Bool) :
    (conjugation B = true ↔ ∀ b ∈ B, b = true) ∧
      conjugation [] = true ∧
      (∀ (Ty : Type) (T : Ty) (Conditions : List (Ty → Bool)),
        fulfills T Conditions = conjugation (Conditions.map (fun C => C T)) ∧
        (fulfills T Conditions = true ↔ ∀ C ∈ Conditions, C T = true)) ∧
      conjugation [true, false] = false ∧ conjugation [false, true] = false ∧
      conjugation [false, false] = false ∧ conjugation [true, true] = true ∧
      fulfills CType.int [std_is_signed, std_is_integral] = true ∧
      fulfills CType.double [std_is_signed, std_is_integral] = false := by
  have h : ∀ l : List Bool, conjugation l = true ↔ ∀ b ∈ l, b = true := by
    intro l
    induction l with
    | nil => simp [conjugation]
    | cons a l ih =>
      cases l with
      | nil => simp [conjugation]
      | cons c l =>
        cases a with
        | false => simp [conjugation]
        | true =>
          simp only [conjugation, if_true, ih]
          simp
  refine ⟨h B, rfl, ?_, rfl, rfl, rfl, rfl, by decide, by decide⟩
  intro Ty T Conditions
  refine ⟨rfl, ?_⟩
  unfold fulfills
  rw [h]
  simp

/-- C32: `disjunction<B_1, ..., B_n>::value` is true exactly when at least one
`B_i::value` is true (false for no argument); the tests on `bool_constant`
pairs hold. -/
theorem C32_disjunction_is_disjunction (B : List Bool) :
    (disjunction B = true ↔ ∃ b ∈ B, b = true) ∧
      disjunction [] = false ∧
      disjunction [false, false] = false ∧ disjunction [true, false] = true ∧
      disjunction [false, true] = true ∧ disjunction [true, true] = true := by
  refine ⟨?_, rfl, rfl, rfl, rfl, rfl⟩
  induction B with
  | nil => simp [disjunction]
  | cons a l ih =>
    cases l with
    | nil => simp [disjunction]
    | cons c l =>
      cases a with
      | true => simp [disjunction]
      | false =>
        have hd : disjunction (false :: c :: l) = disjunction (c :: l) := by
          simp [disjunction]
        rw [hd, ih]
        simp

/-- C33: `IsSequenceContainer<C>::value` is true exactly when `C` is a
specialisation of `std::vector`, `std::array`, `std::list`, `std::deque` or
`std::forward_list`, and false for every other type, such as `double`. -/
theorem C33_IsSequenceContainer_exactly_the_five_templates (C : CType) :
    (IsSequenceContainer C = true ↔
        (∃ T A, C = CType.vector T A) ∨ (∃ T N, C = CType.array T N) ∨
        (∃ T A, C = CType.list T A) ∨ (∃ T A, C = CType.deque T A) ∨
        (∃ T A, C = CType.forward_list T A)) ∧
      IsSequenceContainer CType.double = false ∧
      IsSequenceContainer (CType.vector CType.int (CType.allocator CType.int)) = true ∧
      IsSequenceContainer (CType.array CType.int 3) = true ∧
      IsSequenceContainer (CType.list CType.int (CType.allocator CType.int)) = true ∧
      IsSequenceContainer (CType.deque CType.int (CType.allocator CType.int)) = true ∧
      IsSequenceContainer (CType.forward_list CType.int (CType.allocator CType.int)) = true := by
  refine ⟨?_, rfl, rfl, rfl, rfl, rfl, rfl⟩
  cases C <;> simp [IsSequenceContainer]

/-- C34: `HasRandomAccess<C>::value` is true exactly when `C` is a specialisation
of `std::vector`, `std::array` or `std::deque`, and false for every other
type, such as `int` and `std::list<int>`; a type with `HasRandomAccess` also
has `IsSequenceContainer`. -/
theorem C34_HasRandomAccess_exactly_vector_array_deque (C : CType) :
    (HasRandomAccess C = true ↔
        (∃ T A, C = CType.vector T A) ∨ (∃ T N, C = CType.array T N) ∨
        (∃ T A, C = CType.deque T A)) ∧
      (HasRandomAccess C = false ∨ IsSequenceContainer C = true) ∧
      HasRandomAccess CType.int = false ∧
      HasRandomAccess (CType.list CType.int (CType.allocator CType.int)) = false ∧
      HasRandomAccess (CType.vector CType.int (CType.allocator CType.int)) = true ∧
      HasRandomAccess (CType.array CType.int 2) = true := by
  refine ⟨?_, ?_, rfl, rfl, rfl, rfl⟩
  · cases C <;> simp [HasRandomAccess]
  · cases C <;> simp [HasRandomAccess, IsSequenceContainer]

/-! ### `BasicFileHandler::open` -/

theorem open_loop_free (stat : String → Bool) (filename ext1 : String)
    (self : BasicFileHandler) (m : Nat) :
    ∀ (j fuel : Nat),
      (∀ i, i < m → stat (numbered filename (j + i) ++ ext1) = true) →
      stat (numbered filename (j + m) ++ ext1) = false →
      (∀ c : Nat, j < c → c ≤ j + m → (c : Int) ≠ self._writing_attempts) →
      ((j + m : Nat) : Int) ≤ INT_MAX → m < fuel →
      BasicFileHandler.open_loop stat filename ext1 self fuel (j : Int) (numbered filename j) =
        some (OpenOutcome.returned
          { self with
            _filename := numbered filename (j + m) ++ ext1
            _file := some (numbered filename (j + m) ++ ext1)
            _file_open := true }) := by
  induction m with
  | zero =>
    intro j fuel _ hfree _ _ hf
    obtain ⟨f, rfl⟩ : ∃ f, fuel = f + 1 := ⟨fuel - 1, by omega⟩
    simp only [Nat.add_zero] at hfree ⊢
    simp [BasicFileHandler.open_loop, hfree]
  | succ m ih =>
    intro j fuel htaken hfree hatt hint hf
    obtain ⟨f, rfl⟩ : ∃ f, fuel = f + 1 := ⟨fuel - 1, by omega⟩
    have h0 : stat (numbered filename j ++ ext1) = true := by
      have := htaken 0 (by omega)
      simpa using this
    have hmax : (j : Int) ≠ INT_MAX := by
      unfold INT_MAX at hint ⊢
      push_cast at hint
      omega
    have hc : (j : Int) + 1 ≠ self._writing_attempts := by
      have := hatt (j + 1) (by omega) (by omega)
      push_cast at this
      exact this
    have hname : filename ++ "-" ++ toString ((j : Int) + 1) = numbered filename (j + 1) := by
      simp [numbered]
    have hcast : (j : Int) + 1 = ((j + 1 : Nat) : Int) := by push_cast; rfl
    simp only [BasicFileHandler.open_loop, h0, if_true, hmax, if_false, hc, hname]
    rw [hcast, ih (j + 1) f]
    · have e : j + 1 + m = j + (m + 1) := by omega
      rw [e]
    · intro i hi
      have := htaken (i + 1) (by omega)
      have e : j + 1 + i = j + (i + 1) := by omega
      rw [e]
      exact this
    · have e : j + 1 + m = j + (m + 1) := by omega
      rw [e]
      exact hfree
    · intro c h1 h2
      exact hatt c (by omega) (by omega)
    · have e : j + 1 + m = j + (m + 1) := by omega
      rw [e]
      exact hint
    · omega

theorem open_loop_throw (stat : String → Bool) (filename ext1 : String)
    (self : BasicFileHandler) (k : Nat) (hatt : self._writing_attempts = (k : Int))
    (hk : (k : Int) ≤ INT_MAX) (d : Nat) :
    ∀ (j fuel : Nat), j + d + 1 = k →
      (∀ i, j ≤ i → i < k → stat (numbered filename i ++ ext1) = true) → d < fuel →
      BasicFileHandler.open_loop stat filename ext1 self fuel (j : Int) (numbered filename j) =
        some (OpenOutcome.runtime_error
          ("Could not open file after " ++ toString self._writing_attempts ++
            " attempts.\n") self) := by
  induction d with
  | zero =>
    intro j fuel hj htaken hf
    obtain ⟨f, rfl⟩ : ∃ f, fuel = f + 1 := ⟨fuel - 1, by omega⟩
    have h0 := htaken j (by omega) (by omega)
    have hmax : (j : Int) ≠ INT_MAX := by
      unfold INT_MAX at hk ⊢
      omega
    have hc : (j : Int) + 1 = self._writing_attempts := by
      rw [hatt]
      omega
    simp [BasicFileHandler.open_loop, h0, hmax, hc]
  | succ d ih =>
    intro j fuel hj htaken hf
    obtain ⟨f, rfl⟩ : ∃ f, fuel = f + 1 := ⟨fuel - 1, by omega⟩
    have h0 := htaken j (by omega) (by omega)
    have hmax : (j : Int) ≠ INT_MAX := by
      unfold INT_MAX at hk ⊢
      omega
    have hc : (j : Int) + 1 ≠ self._writing_attempts := by
      rw [hatt]
      omega
    have hname : filename ++ "-" ++ toString ((j : Int) + 1) = numbered filename (j + 1) := by
      simp [numbered]
    have hcast : (j : Int) + 1 = ((j + 1 : Nat) : Int) := by push_cast; rfl
    simp only [BasicFileHandler.open_loop, h0, if_true, hmax, if_false, hc, hname]
    rw [hcast]
    exact ih (j + 1) f (by omega) (fun i h1 h2 => htaken i (by omega) h2) (by omega)

theorem open_loop_no_throw (stat : String → Bool) (filename ext1 : String)
    (self : BasicFileHandler) (hatt : self._writing_attempts ≤ 0) :
    ∀ (fuel : Nat) (count : Int) (filename_new what : String) (self1 : BasicFileHandler),
      0 ≤ count →
      BasicFileHandler.open_loop stat filename ext1 self fuel count filename_new ≠
        some (OpenOutcome.runtime_error what self1) := by
  intro fuel
  induction fuel with
  | zero =>
    intro count filename_new what self1 _ h
    simp [BasicFileHandler.open_loop] at h
  | succ f ih =>
    intro count filename_new what self1 hc h
    simp only [BasicFileHandler.open_loop] at h
    split at h
    · split at h
      · simp at h
      · split at h
        · rename_i heq
          omega
        · exact ih (count + 1) _ what self1 (by omega) h
    · simp at h

theorem open_free (stat : String → Bool) (self : BasicFileHandler)
    (filename extension : String) (j fuel : Nat)
    (hfree : stat (candidate filename extension j) = false)
    (hfirst : ∀ i, i < j → stat (candidate filename extension i) = true)
    (hatt : ∀ c : Nat, 0 < c → c ≤ j → (c : Int) ≠ self._writing_attempts)
    (hint : (j : Int) ≤ INT_MAX) (hfuel : j < fuel) :
    self.open stat filename extension fuel =
      some (OpenOutcome.returned
        { self with
          _file_extension := extension
          _filename := candidate filename extension j
          _file := some (candidate filename extension j)
          _file_open := true }) := by
  have h := open_loop_free stat filename (dotted extension)
    { self with _file_extension := extension } j 0 fuel
    (fun i hi => by simpa [candidate] using hfirst i hi)
    (by simpa [candidate] using hfree)
    (fun c h1 h2 => hatt c h1 (by omega))
    (by simpa using hint) hfuel
  have hn : numbered filename 0 = filename := by simp [numbered]
  simp only [Nat.zero_add, Nat.cast_zero, hn] at h
  exact h

/-- C35: when candidate `j` is the first name of the sequence `filename.extension`,
`filename-1.extension`, ... that does not exist, and it lies within the allowed
attempts (no limit for a non-positive setting, `j` below the limit otherwise)
and within the range of the `int` counter, `open(filename, extension)` returns
having opened exactly that name, and `getFilename()` returns it, extension
included. -/
theorem C35_open_takes_first_free_name (stat : String → Bool) (self : BasicFileHandler)
    (filename extension : String) (j fuel : Nat)
    (hfree : stat (candidate filename extension j) = false)
    (hfirst : ∀ i, i < j → stat (candidate filename extension i) = true)
    (hatt : self._writing_attempts ≤ 0 ∨ (j : Int) < self._writing_attempts)
    (hint : (j : Int) ≤ INT_MAX) (hfuel : j < fuel) :
    ∃ self1, self.open stat filename extension fuel = some (OpenOutcome.returned self1) ∧
      self1._file = some (candidate filename extension j) ∧
      self1.getFilename = candidate filename extension j ∧
      self1._file_open = true :=
  ⟨_, open_free stat self filename extension j fuel hfree hfirst
    (fun c h1 h2 => by
      rcases hatt with h | h
      · omega
      · omega) hint hfuel, rfl, rfl, rfl⟩

/-- C35 where `data.txt` and `data-1.txt` exist: `open("data", "txt")` opens
`data-2.txt`; without extension no dot is added. -/
theorem C35_open_takes_first_free_name_witness :
    (∃ self1, (BasicFileHandler.ctor (-42)).open two_taken "data" "txt" 3 =
        some (OpenOutcome.returned self1) ∧
      self1._file = some (candidate "data" "txt" 2) ∧
      self1.getFilename = candidate "data" "txt" 2 ∧
      self1._file_open = true) ∧
      candidate "data" "txt" 0 = "data.txt" ∧ candidate "data" "txt" 1 = "data-1.txt" ∧
      candidate "data" "txt" 2 = "data-2.txt" ∧ candidate "data" "" 0 = "data" ∧
      candidate "data" "" 1 = "data-1" :=
  ⟨C35_open_takes_first_free_name two_taken (BasicFileHandler.ctor (-42)) "data" "txt" 2 3
    (by decide) (by decide) (Or.inl (by decide)) (by decide) (by decide),
    by decide, by decide, by decide, by decide, by decide⟩

/-- C36: with a limit of `k > 0` attempts, `open` throws `std::runtime_error`
exactly when the `k` names `filename`, `filename-1`, ..., `filename-(k-1)` (each
with the extension) all exist; when it throws, the stored filename, the
stream and the open flag are as they were before the call. -/
theorem C36_open_throws_iff_all_candidates_taken (stat : String → Bool)
    (self : BasicFileHandler) (filename extension : String) (k fuel : Nat)
    (hk : 0 < k) (hkint : (k : Int) ≤ INT_MAX)
    (hatt : self._writing_attempts = (k : Int)) (hfuel : k ≤ fuel) :
    ((∃ what self1, self.open stat filename extension fuel =
          some (OpenOutcome.runtime_error what self1)) ↔
        ∀ i, i < k → stat (candidate filename extension i) = true) ∧
      ∀ what self1, self.open stat filename extension fuel =
          some (OpenOutcome.runtime_error what self1) →
        self1._filename = self._filename ∧ self1._file = self._file ∧
          self1._file_open = self._file_open := by
  have hthrow : (∀ i, i < k → stat (candidate filename extension i) = true) →
      self.open stat filename extension fuel =
        some (OpenOutcome.runtime_error
          ("Could not open file after " ++ toString self._writing_attempts ++
            " attempts.\n") { self with _file_extension := extension }) := by
    intro hall
    have h := open_loop_throw stat filename (dotted extension)
      { self with _file_extension := extension } k hatt hkint (k - 1) 0 fuel (by omega)
      (fun i _ h2 => by simpa [candidate] using hall i h2) (by omega)
    have hn : numbered filename 0 = filename := by simp [numbered]
    simp only [Nat.cast_zero, hn] at h
    exact h
  have hall : (∃ what self1, self.open stat filename extension fuel =
        some (OpenOutcome.runtime_error what self1)) →
      ∀ i, i < k → stat (candidate filename extension i) = true := by
    rintro ⟨what, self1, h⟩
    by_contra hnot
    push_neg at hnot
    have hex : ∃ i, i < k ∧ stat (candidate filename extension i) = false := by
      obtain ⟨i, hi, hs⟩ := hnot
      exact ⟨i, hi, by simpa using hs⟩
    obtain ⟨hjk, hjfree⟩ := Nat.find_spec hex
    have hfirst : ∀ i, i < Nat.find hex → stat (candidate filename extension i) = true := by
      intro i hi
      have := Nat.find_min hex hi
      simp only [not_and, Bool.not_eq_false] at this
      exact this (by omega)
    have hret := open_free stat self filename extension (Nat.find hex) fuel hjfree hfirst
      (fun c _ h2 => by rw [hatt]; omega)
      (by unfold INT_MAX at hkint ⊢; omega) (by omega)
    rw [hret] at h
    simp at h
  refine ⟨⟨hall, fun h => ⟨_, _, hthrow h⟩⟩, ?_⟩
  intro what self1 h
  have h2 := hthrow (hall ⟨what, self1, h⟩)
  rw [h2] at h
  simp only [Option.some.injEq, OpenOutcome.runtime_error.injEq] at h
  rw [← h.2]
  exact ⟨rfl, rfl, rfl⟩

/-- C36 where `data.txt` and `data-1.txt` exist and the limit is 2: `open` throws
and leaves the stored filename empty and no file open. -/
theorem C36_open_throws_iff_all_candidates_taken_witness :
    (((∃ what self1, (BasicFileHandler.ctor 2).open two_taken "data" "txt" 2 =
          some (OpenOutcome.runtime_error what self1)) ↔
        ∀ i, i < 2 → two_taken (candidate "data" "txt" i) = true) ∧
      ∀ what self1, (BasicFileHandler.ctor 2).open two_taken "data" "txt" 2 =
          some (OpenOutcome.runtime_error what self1) →
        self1._filename = (BasicFileHandler.ctor 2)._filename ∧
          self1._file = (BasicFileHandler.ctor 2)._file ∧
          self1._file_open = (BasicFileHandler.ctor 2)._file_open) ∧
      (BasicFileHandler.ctor 2).open two_taken "data" "txt" 2 =
        some (OpenOutcome.runtime_error "Could not open file after 2 attempts.\n"
          ⟨"", "txt", none, false, 2⟩) ∧
      (BasicFileHandler.ctor 3).open two_taken "data" "txt" 3 =
        some (OpenOutcome.returned ⟨"data-2.txt", "txt", some "data-2.txt", true, 3⟩) :=
  ⟨C36_open_throws_iff_all_candidates_taken two_taken (BasicFileHandler.ctor 2) "data" "txt"
    2 2 (by decide) (by decide) rfl (by decide), by decide, by decide⟩

/-- C40: with `_writing_attempts == 0`, `open` never throws `std::runtime_error`,
whatever names exist and however long it runs: the counter is incremented
before it is compared, so it is never `0` at the comparison.  When candidate
`j` is the first free name (within the range of the `int` counter), `open`
returns having opened it, exactly as with a negative setting. -/
theorem C40_zero_attempts_never_throws (stat : String → Bool) (self : BasicFileHandler)
    (filename extension : String) (hatt : self._writing_attempts = 0) :
    (∀ fuel what self1, self.open stat filename extension fuel ≠
        some (OpenOutcome.runtime_error what self1)) ∧
      ∀ j fuel : Nat, stat (candidate filename extension j) = false →
        (∀ i, i < j → stat (candidate filename extension i) = true) →
        (j : Int) ≤ INT_MAX → j < fuel →
        ∃ self1, self.open stat filename extension fuel = some (OpenOutcome.returned self1) ∧
          self1._file = some (candidate filename extension j) ∧
          self1.getFilename = candidate filename extension j ∧
          ∀ negative : Int, negative < 0 →
            ({ self with _writing_attempts := negative }).open stat filename extension fuel =
              some (OpenOutcome.returned { self1 with _writing_attempts := negative }) := by
  constructor
  · intro fuel what self1
    exact open_loop_no_throw stat filename (dotted extension)
      { self with _file_extension := extension } (by simp [hatt]) fuel 0 filename what self1
      (by omega)
  · intro j fuel hfree hfirst hint hfuel
    refine ⟨_, open_free stat self filename extension j fuel hfree hfirst
      (fun c h1 _ => by rw [hatt]; omega) hint hfuel, rfl, rfl, ?_⟩
    intro negative hneg
    exact open_free stat { self with _writing_attempts := negative } filename extension j fuel
      hfree hfirst (fun c h1 _ => by
        show (c : Int) ≠ negative
        omega) hint hfuel

/-- C40 where `data.txt` and `data-1.txt` exist and the limit is 0: `open` does not
throw and opens `data-2.txt`. -/
theorem C40_zero_attempts_never_throws_witness :
    ((∀ fuel what self1, (BasicFileHandler.ctor 0).open two_taken "data" "txt" fuel ≠
        some (OpenOutcome.runtime_error what self1)) ∧
      ∀ j fuel : Nat, two_taken (candidate "data" "txt" j) = false →
        (∀ i, i < j → two_taken (candidate "data" "txt" i) = true) →
        (j : Int) ≤ INT_MAX → j < fuel →
        ∃ self1, (BasicFileHandler.ctor 0).open two_taken "data" "txt" fuel =
            some (OpenOutcome.returned self1) ∧
          self1._file = some (candidate "data" "txt" j) ∧
          self1.getFilename = candidate "data" "txt" j ∧
          ∀ negative : Int, negative < 0 →
            ({ BasicFileHandler.ctor 0 with _writing_attempts := negative }).open two_taken
                "data" "txt" fuel =
              some (OpenOutcome.returned { self1 with _writing_attempts := negative })) ∧
      (BasicFileHandler.ctor 0).open two_taken "data" "txt" 3 =
        some (OpenOutcome.returned ⟨"data-2.txt", "txt", some "data-2.txt", true, 0⟩) :=
  ⟨C40_zero_attempts_never_throws two_taken (BasicFileHandler.ctor 0) "data" "txt" rfl,
    by decide⟩

/-! ### `parallel_accumulate` -/

end js
